import Mathlib

/-!
# Lua-TTyrant: marshalling layer of `src/ttyrant.c`

A shallow embedding of the C functions of `ttyrant.c` that convert between Lua
values and Tokyo Cabinet lists and maps, and of the Lua-facing functions built on
them, followed by theorems about them.

Modelling conventions

* A byte string (a Lua string, a `TCLIST` item, a `TCMAP` key or value) is a list of
  characters, one character per byte.
* A Lua table given to a function is the list of its entries in the order in which
  `lua_next` visits them.  A Lua table built by a function is the list of its bindings
  in the order in which the keys were first stored, which need not be the order in
  which `lua_next` would visit it.  Tables nested inside a table are references
  (`LuaValue.ref`), which is all the C code ever looks at (their type tag).
* A `TCLIST` is the list of its items, first item first.
* A C function of type `lua_CFunction` becomes a function from the Lua stack it is
  called with (slot 1 first) to the requests it sends to the server and its outcome:
  either a raised Lua error, or the values it returns.
-/

namespace TTyrant

/-! ## Lua values -/

/-- A byte string: the bytes of a Lua string or of a list item. -/
abbrev ByteString := List Char

/-- A `lua_Number` (a C `double`): not-a-number, an infinity, or a finite value. -/
inductive LuaNumber where
  | nan
  | inf (negative : Bool)
  | finite (q : Rat)
  deriving DecidableEq, Repr

/-- Kinds of Lua values that are held by reference. -/
inductive RefKind where
  | table
  | function
  | userdata
  | thread
  deriving DecidableEq, Repr

/-- A Lua value as it occurs as a key or a value of a table. -/
inductive LuaValue where
  | nil
  | boolean (b : Bool)
  | lightuserdata (p : Nat)
  | number (n : LuaNumber)
  | string (s : ByteString)
  | ref (kind : RefKind) (id : Nat)
  deriving DecidableEq, Repr

/-- A Lua table: its entries in `lua_next` order. -/
abbrev LuaTable := List (LuaValue × LuaValue)

/-- A slot of the Lua stack: a plain value, or a table given with its entries.
A table on the stack is always given as `tableOf`; `LuaValue.ref` stands for the
tables nested inside one. -/
inductive StackValue where
  | value (v : LuaValue)
  | tableOf (t : LuaTable)
  deriving DecidableEq, Repr

/-- The Lua stack of a C function call: slot 1 first. -/
abbrev LuaStack := List StackValue

/-! ### Type tags (`lua.h`) -/

def LUA_TNONE : Int := -1
def LUA_TNIL : Int := 0
def LUA_TBOOLEAN : Int := 1
def LUA_TLIGHTUSERDATA : Int := 2
def LUA_TNUMBER : Int := 3
def LUA_TSTRING : Int := 4
def LUA_TTABLE : Int := 5
def LUA_TFUNCTION : Int := 6
def LUA_TUSERDATA : Int := 7
def LUA_TTHREAD : Int := 8

/-- Type tag of a value (`lua_type` on a key or value pushed by `lua_next`). -/
def lua_type : LuaValue → Int
  | .nil => LUA_TNIL
  | .boolean _ => LUA_TBOOLEAN
  | .lightuserdata _ => LUA_TLIGHTUSERDATA
  | .number _ => LUA_TNUMBER
  | .string _ => LUA_TSTRING
  | .ref .table _ => LUA_TTABLE
  | .ref .function _ => LUA_TFUNCTION
  | .ref .userdata _ => LUA_TUSERDATA
  | .ref .thread _ => LUA_TTHREAD

/-! ## Tokyo Cabinet lists -/

/-- A `TCLIST`: its items, first item first. -/
abbrev TCLIST := List ByteString

/-- Append an item at the end of a list (`tclistpush`). -/
def tclistpush (list : TCLIST) (item : ByteString) : TCLIST := list ++ [item]

/-- Remove and return the first item of a list (`tclistshift`); `none` is the NULL
the library returns on an empty list. -/
def tclistshift : TCLIST → Option (ByteString × TCLIST)
  | [] => none
  | item :: rest => some (item, rest)

/-- Number of items of a list (`tclistnum`). -/
def tclistnum (list : TCLIST) : Nat := list.length

/-! ## `_luatable2tclist` -/

/-- The body of the `while (lua_next(L, index))` loop of `_luatable2tclist`, run over
the entries still to be visited; `list` is the list built so far. -/
def _luatable2tclist_loop (full : Int) : LuaTable → TCLIST → TCLIST
  | [], list => list
  | (k, v) :: rest, list =>
    -- key: `key = NULL; if (lua_type(L, -2) == LUA_TSTRING) { key = ...; tclistpush(list, key) }`
    let key : Option ByteString :=
      match k with
      | .string s => some s
      | _ => none
    let list1 : TCLIST :=
      match key with
      | some s => tclistpush list s
      | none => list
    -- value: `if (lua_type(L, -1) == LUA_TSTRING && ((full && key) || (!full && !key)))`
    let list2 : TCLIST :=
      match v with
      | .string s =>
        if (full ≠ 0 ∧ key.isSome) ∨ (full = 0 ∧ key.isNone) then tclistpush list1 s else list1
      | _ => list1
    _luatable2tclist_loop full rest list2

/-- Turn the Lua table `t` into a `TCLIST` (`_luatable2tclist(L, index, full)`, with `t`
the table found at `index`). -/
def _luatable2tclist (t : LuaTable) (full : Int) : TCLIST :=
  _luatable2tclist_loop full t []

/-! ## Lua tables under construction -/

/-- Raw lookup of a key in a table (`lua_rawget`; `nil` when the key is absent). -/
def lua_rawget (t : LuaTable) (k : LuaValue) : LuaValue :=
  match t.find? (fun e => e.1 = k) with
  | some e => e.2
  | none => .nil

/-- Assignment `t[k] = v` (`lua_settable` on a table without metatable): a `nil` value
removes the key, an existing key keeps its place and gets the new value, a new key is
entered after the existing ones.  The list so built records the bindings of the table in
the order in which the keys were first stored; the order in which `lua_next` would visit
the table is decided by the Lua core and is not what this list says (for string keys see
`luaH_order` below). -/
def lua_settable (t : LuaTable) (k v : LuaValue) : LuaTable :=
  if v = .nil then t.filter (fun e => e.1 ≠ k)
  else if t.any (fun e => e.1 = k) then t.map (fun e => if e.1 = k then (k, v) else e)
  else t ++ [(k, v)]

/-- The value `lua_pushinteger(L, n)` pushes. -/
def lua_pushinteger (n : Int) : LuaValue := .number (.finite (n : Rat))

/-! ## `_tclist2luatable` -/

/-- The `for (; pairs > 0; pairs--)` loop of `_tclist2luatable`: `pairs` rounds remain,
`items` is what is left of the list, `index` the next sequence index, `t` the table
built so far.  `none` stands for the NULL item `tclistshift` returns once the list is
exhausted, which the C code would hand to `lua_pushlstring`. -/
def _tclist2luatable_loop (keys : Int) : Nat → TCLIST → Int → LuaTable → Option LuaTable
  | 0, _, _, t => some t
  | pairs + 1, items, index, t =>
    if keys ≠ 0 then
      -- key
      match tclistshift items with
      | none => none
      | some (key, items1) =>
        -- value
        match tclistshift items1 with
        | none => none
        | some (value, items2) =>
          -- store
          _tclist2luatable_loop keys pairs items2 index
            (lua_settable t (.string key) (.string value))
    else
      -- value
      match tclistshift items with
      | none => none
      | some (value, items1) =>
        -- store
        _tclist2luatable_loop keys pairs items1 (index + 1)
          (lua_settable t (lua_pushinteger index) (.string value))

/-- Assemble the items of a `TCLIST` into a new Lua table
(`_tclist2luatable(L, items, keys)`): the table left on top of the stack. -/
def _tclist2luatable (items : TCLIST) (keys : Int) : Option LuaTable :=
  let pairs : Nat := tclistnum items / (if keys ≠ 0 then 2 else 1)
  _tclist2luatable_loop keys pairs items 1 []

/-! ## The Lua stack and the auxiliary library -/

/-- Errors raised through `lua_error` (a `longjmp` out of the C function). -/
inductive LuaError where
  | message (msg : String)
  | typeError (narg : Int) (expected : String)
  deriving DecidableEq, Repr

/-- Conversions between numbers and strings supplied by the Lua core
(`lua_number2str`, `luaO_str2d`); they are not part of `ttyrant.c`. -/
structure LuaHost where
  number2str : LuaNumber → ByteString
  str2number : ByteString → Option LuaNumber

/-- Number of slots of the stack (`lua_gettop`). -/
def lua_gettop (L : LuaStack) : Nat := L.length

/-- The slot at a positive index, `none` beyond the top. -/
def slotAt (L : LuaStack) (index : Nat) : Option StackValue :=
  if index = 0 then none else L.get? (index - 1)

/-- Type tag of the slot at a positive index (`lua_type(L, index)`). -/
def lua_typeAt (L : LuaStack) (index : Nat) : Int :=
  match slotAt L index with
  | none => LUA_TNONE
  | some (.tableOf _) => LUA_TTABLE
  | some (.value v) => lua_type v

/-- `lua_istable(L, index)`. -/
def lua_istable (L : LuaStack) (index : Nat) : Bool := lua_typeAt L index = LUA_TTABLE

/-- `lua_isnoneornil(L, index)`. -/
def lua_isnoneornil (L : LuaStack) (index : Nat) : Bool := lua_typeAt L index ≤ 0

/-- The entries of the table in a slot (nothing for a slot that holds no table). -/
def tableAt (L : LuaStack) (index : Nat) : LuaTable :=
  match slotAt L index with
  | some (.tableOf t) => t
  | _ => []

/-- `lua_tolstring` on a value: a string is itself, a number is converted, anything
else gives NULL. -/
def lua_tolstring (H : LuaHost) : LuaValue → Option ByteString
  | .string s => some s
  | .number n => some (H.number2str n)
  | _ => none

/-- `luaL_checklstring` on a key or value of a table being traversed. -/
def luaL_checklstring_value (H : LuaHost) (narg : Int) (v : LuaValue) :
    Except LuaError ByteString :=
  match lua_tolstring H v with
  | some s => .ok s
  | none => .error (.typeError narg "string")

/-- `luaL_checklstring(L, narg, &len)`. -/
def luaL_checklstring (H : LuaHost) (L : LuaStack) (narg : Nat) : Except LuaError ByteString :=
  match slotAt L narg with
  | some (.value v) => luaL_checklstring_value H narg v
  | _ => .error (.typeError narg "string")

/-- `lua_tonumber` on a value, with `none` when the value is no number and no string
convertible to one (`lua_isnumber` false). -/
def lua_tonumber (H : LuaHost) : LuaValue → Option LuaNumber
  | .number n => some n
  | .string s => H.str2number s
  | _ => none

/-- `luaL_checknumber(L, narg)`. -/
def luaL_checknumber (H : LuaHost) (L : LuaStack) (narg : Nat) : Except LuaError LuaNumber :=
  match slotAt L narg with
  | some (.value v) =>
    match lua_tonumber H v with
    | some n => .ok n
    | none => .error (.typeError narg "number")
  | _ => .error (.typeError narg "number")

/-- Field `name` of the table in a slot (`lua_getfield`, metatables apart). -/
def lua_getfield (L : LuaStack) (index : Nat) (name : String) : LuaValue :=
  lua_rawget (tableAt L index) (.string name.toList)

/-- `lua_touserdata`: the address held by a userdata, NULL (0) for any other value. -/
def lua_touserdata : LuaValue → Nat
  | .lightuserdata p => p
  | .ref .userdata id => id
  | _ => 0

/-- Extract the userdata from the field `xyz` of the table at `level` (`_self`). -/
def _self (L : LuaStack) (level : Nat) (xyz : String) (error : String) : Except LuaError Nat :=
  -- extract
  let self : Nat := if lua_istable L level then lua_touserdata (lua_getfield L level xyz) else 0
  -- check
  if self = 0 then .error (.message error) else .ok self

def _self_hdb (L : LuaStack) : Except LuaError Nat :=
  _self L 1 "__rdb" "Invalid «self», expected «ttyrant» instance!"

def _self_tdb (L : LuaStack) : Except LuaError Nat :=
  _self L 1 "__tdb" "Invalid «self», expected «ttyrant.table» instance!"

def _self_any (L : LuaStack) : Except LuaError Nat :=
  _self L 1 "__any" "Invalid «self», expected «ttyrant or ttyrant.table» instance!"

/-! ## `_lualist2tclist` -/

/-- The `for (; index <= items; index++)` loop of `_lualist2tclist`; `count` is the
number of rounds left. -/
def _lualist2tclist_loop (H : LuaHost) (L : LuaStack) : Nat → Nat → TCLIST → Except LuaError TCLIST
  | 0, _, list => .ok list
  | count + 1, index, list =>
    match luaL_checklstring H L index with
    | .error e => .error e
    | .ok item => _lualist2tclist_loop H L count (index + 1) (tclistpush list item)

/-- Turn the arguments from slot `index` up to the top into a `TCLIST`
(`_lualist2tclist(L, index)`). -/
def _lualist2tclist (H : LuaHost) (L : LuaStack) (index : Nat) : Except LuaError TCLIST :=
  let items := lua_gettop L
  _lualist2tclist_loop H L (items + 1 - index) index []

/-! ## The server -/

/-- A `TCMAP`: its records in iteration order (the order of first insertion). -/
abbrev TCMAP := List (ByteString × ByteString)

/-- Store a record in a map (`tcmapput`): an existing key keeps its place and gets the
new value, a new key goes last. -/
def tcmapput (map : TCMAP) (key value : ByteString) : TCMAP :=
  if map.any (fun r => r.1 = key) then map.map (fun r => if r.1 = key then (key, value) else r)
  else map ++ [(key, value)]

/-- Value of a key in a map (`tcmapget`), `none` for the NULL of an absent key. -/
def tcmapget (map : TCMAP) (key : ByteString) : Option ByteString :=
  (map.find? (fun r => r.1 = key)).map (fun r => r.2)

/-- A request sent to the server through the `tcrdb` client library. -/
inductive Request where
  | tcrdbput (key value : ByteString)
  | tcrdbget (key : ByteString)
  | tcrdbmisc (name : String) (opts : Int) (args : TCLIST)
  | tcrdbadddouble (key : ByteString) (num : LuaNumber)
  | tcrdbtblput (key : ByteString) (cols : TCMAP)
  | tcrdbtblputkeep (key : ByteString) (cols : TCMAP)
  | tcrdbtblputcat (key : ByteString) (cols : TCMAP)
  | tcrdbtblget (key : ByteString)
  deriving DecidableEq, Repr

/-- What the server answers to each request, and the message of its last error
(`tcrdberrmsg(tcrdbecode(db))`).  The `tcrdb` library is not part of `ttyrant.c`. -/
structure Backend where
  tcrdbput : ByteString → ByteString → Bool
  tcrdbget : ByteString → Option ByteString
  tcrdbmisc : String → Int → TCLIST → Option TCLIST
  tcrdbadddouble : ByteString → LuaNumber → LuaNumber
  tcrdbtblput : ByteString → TCMAP → Bool
  tcrdbtblputkeep : ByteString → TCMAP → Bool
  tcrdbtblputcat : ByteString → TCMAP → Bool
  tcrdbtblget : ByteString → Option TCMAP
  errmsg : ByteString

/-- How a call of a C function ends: with a raised Lua error, or by returning values. -/
inductive Outcome where
  | raised (e : LuaError)
  | returned (values : List StackValue)
  deriving DecidableEq, Repr

/-- The values the macro `_failure(L, msg)` returns: `nil` and the message. -/
def _failure (msg : ByteString) : Outcome :=
  .returned [.value .nil, .value (.string msg)]

/-! ## C numbers -/

/-- Comparison `a == b` of two C doubles. -/
def double_eq : LuaNumber → LuaNumber → Bool
  | .finite a, .finite b => a = b
  | .inf a, .inf b => a = b
  | _, _ => false

/-- The constant `INT_MIN` of `limits.h`, for a 32-bit `int`. -/
def INT_MIN : Int := -2147483648

/-- Conversion of a double to `lua_Integer` (a 64-bit signed integer) by a C cast: the
fraction is dropped.  For a value outside the range of the integer type, where C leaves
the result undefined, this is the value the x86-64 conversion instruction gives. -/
def lua_number2integer : LuaNumber → Int
  | .finite q =>
    let z := Int.tdiv q.num q.den
    if -2 ^ 63 ≤ z ∧ z < 2 ^ 63 then z else -2 ^ 63
  | _ => -2 ^ 63

/-- `luaL_checkinteger` on a key or value of a table being traversed. -/
def luaL_checkinteger_value (H : LuaHost) (narg : Int) (v : LuaValue) : Except LuaError Int :=
  match lua_tonumber H v with
  | some n => .ok (lua_number2integer n)
  | none => .error (.typeError narg "number")

/-- The text `snprintf(scol, 64, "%li", x)` writes: the decimal digits of `x`, with a
leading minus sign when negative.  A 64-bit integer has at most 20 characters, so the
text fits the buffer and the returned size is its length. -/
def snprintf_li (x : Int) : ByteString := (toString x).toList

/-! ## Table store: `_table_put` and `luaF_table_get` -/

def PUT_NORMAL : Int := 0
def PUT_NR : Int := 1
def PUT_CAT : Int := 2
def PUT_KEEP : Int := 3

/-- The `while (lua_next(L, 3))` loop of `_table_put` that assembles the tuple.  It ends
with the assembled map, or early with the outcome of the whole call (a raised error, or
the `_failure` return taken when `snprintf` reports an error). -/
def _table_put_tuple (H : LuaHost) (B : Backend) : LuaTable → TCMAP → Except Outcome TCMAP
  | [], tuple => .ok tuple
  | (k, v) :: rest, tuple =>
    -- key
    let column : Except Outcome ByteString :=
      match k with
      | .string s => .ok s
      | _ =>
        match luaL_checkinteger_value H (-2) k with
        | .error e => .error (.raised e)
        | .ok n =>
          let scol := snprintf_li n
          let colsz : Int := scol.length
          if colsz < 0 then .error (_failure B.errmsg) else .ok scol
    match column with
    | .error o => .error o
    | .ok col =>
      -- value
      match luaL_checklstring_value H (-1) v with
      | .error e => .error (.raised e)
      | .ok val =>
        -- push
        _table_put_tuple H B rest (tcmapput tuple col val)

/-- Store a tuple, or extend an existing one, in a table database
(`_table_put(L, error, kind)`). -/
def _table_put (H : LuaHost) (B : Backend) (L : LuaStack) (error : String) (kind : Int) :
    List Request × Outcome :=
  -- db
  match _self_tdb L with
  | .error e => ([], .raised e)
  | .ok _ =>
    -- tuple check
    if !lua_istable L 3 then ([], .raised (.message error)) else
    -- key
    match luaL_checklstring H L 2 with
    | .error e => ([], .raised e)
    | .ok key =>
      -- assemble tuple
      match _table_put_tuple H B (tableAt L 3) [] with
      | .error o => ([], o)
      | .ok tuple =>
        -- store
        let (request, result) :=
          if kind = PUT_CAT then (Request.tcrdbtblputcat key tuple, B.tcrdbtblputcat key tuple)
          else if kind = PUT_KEEP then
            (Request.tcrdbtblputkeep key tuple, B.tcrdbtblputkeep key tuple)
          else (Request.tcrdbtblput key tuple, B.tcrdbtblput key tuple)
        if !result then ([request], _failure B.errmsg)
        else ([request], .returned [.value (.boolean true)])

def luaF_table_put (H : LuaHost) (B : Backend) (L : LuaStack) : List Request × Outcome :=
  _table_put H B L "Invalid value for «ttyrant.table:put()», expected a table/tuple!" PUT_NORMAL

def luaF_table_putcat (H : LuaHost) (B : Backend) (L : LuaStack) : List Request × Outcome :=
  _table_put H B L "Invalid value for «ttyrant.table:putcat()», expected a table/tuple!" PUT_CAT

def luaF_table_putkeep (H : LuaHost) (B : Backend) (L : LuaStack) : List Request × Outcome :=
  _table_put H B L "Invalid value for «ttyrant.table:putkeep()», expected a table/tuple!" PUT_KEEP

/-- The `while ((col = tcmapiternext(tuple, &colsz)) != NULL)` loop of `luaF_table_get`:
`cols` are the column names still to come, `t` the table built so far.  `none` stands for
a NULL value handed to `lua_pushlstring`. -/
def luaF_table_get_loop (tuple : TCMAP) : List ByteString → LuaTable → Option LuaTable
  | [], t => some t
  | col :: cols, t =>
    match tcmapget tuple col with
    | none => none
    | some val => luaF_table_get_loop tuple cols (lua_settable t (.string col) (.string val))

/-- The Lua table `luaF_table_get` builds from the tuple it has received. -/
def luaF_table_get_table (tuple : TCMAP) : Option LuaTable :=
  luaF_table_get_loop tuple (tuple.map (fun r => r.1)) []

/-- Get a tuple from a table database (`luaF_table_get`).  An outcome of `none` stands
for the undefined behaviour of pushing a NULL string. -/
def luaF_table_get (H : LuaHost) (B : Backend) (L : LuaStack) :
    List Request × Option Outcome :=
  -- db
  match _self_tdb L with
  | .error e => ([], some (.raised e))
  | .ok _ =>
    match luaL_checklstring H L 2 with
    | .error e => ([], some (.raised e))
    | .ok key =>
      -- retrieve
      match B.tcrdbtblget key with
      | none => ([.tcrdbtblget key], some (_failure B.errmsg))
      | some tuple =>
        ([.tcrdbtblget key], (luaF_table_get_table tuple).map (fun t => .returned [.tableOf t]))

/-! ## Hash store: `luaF_hash_put`, `luaF_hash_get`, `luaF_any_increment` -/

/-- Store value(s) at given key(s) (`luaF_hash_put`). -/
def luaF_hash_put (H : LuaHost) (B : Backend) (L : LuaStack) : List Request × Outcome :=
  -- initialize
  match _self_hdb L with
  | .error e => ([], .raised e)
  | .ok _ =>
    -- input set: the list to send (NULL when none), the requests sent, the status
    let input : Except LuaError (Option TCLIST × List Request × Bool) :=
      if lua_istable L 2 then
        .ok (some (_luatable2tclist (tableAt L 2) 1), [], false)
      else if lua_gettop L = 3 then
        match luaL_checklstring H L 2 with
        | .error e => .error e
        | .ok key =>
          match luaL_checklstring H L 3 with
          | .error e => .error e
          | .ok value => .ok (none, [.tcrdbput key value], B.tcrdbput key value)
      else
        match _lualist2tclist H L 2 with
        | .error e => .error e
        | .ok items => .ok (some items, [], false)
    match input with
    | .error e => ([], .raised e)
    | .ok (none, requests, status) =>
      -- result
      if !status then (requests, _failure B.errmsg)
      else (requests, .returned [.value (.boolean true)])
    | .ok (some items, requests, status) =>
      -- clear items
      let requests1 := requests ++ [.tcrdbmisc "putlist" 0 items]
      let status1 : Bool :=
        match B.tcrdbmisc "putlist" 0 items with
        | some _ => true
        | none => status
      -- result
      if !status1 then (requests1, _failure B.errmsg)
      else (requests1, .returned [.value (.boolean true)])

/-- Get value(s) at key(s) (`luaF_hash_get`).  An outcome of `none` stands for the
undefined behaviour of pushing a NULL string. -/
def luaF_hash_get (H : LuaHost) (B : Backend) (L : LuaStack) : List Request × Option Outcome :=
  -- initialize
  match _self_hdb L with
  | .error e => ([], some (.raised e))
  | .ok _ =>
    -- input set: the key list (NULL when none), the single item, the requests sent
    let input : Except LuaError (Option TCLIST × Option ByteString × List Request) :=
      if lua_istable L 2 then
        .ok (some (_luatable2tclist (tableAt L 2) 0), none, [])
      else if lua_gettop L = 2 then
        match luaL_checklstring H L 2 with
        | .error e => .error e
        | .ok key => .ok (none, B.tcrdbget key, [.tcrdbget key])
      else
        match _lualist2tclist H L 2 with
        | .error e => .error e
        | .ok keys => .ok (some keys, none, [])
    match input with
    | .error e => ([], some (.raised e))
    | .ok (keys, item, requests) =>
      -- act on set
      let (items, requests1) : Option TCLIST × List Request :=
        match keys with
        | some keys => (B.tcrdbmisc "getlist" 0 keys, requests ++ [.tcrdbmisc "getlist" 0 keys])
        | none => (none, requests)
      -- result set
      match item, items with
      | some item, _ => (requests1, some (.returned [.value (.string item)]))
      | none, some items =>
        (requests1, (_tclist2luatable items 1).map (fun t => .returned [.tableOf t]))
      | none, none => (requests1, some (_failure B.errmsg))

/-- Increment the value at a key (`luaF_any_increment`). -/
def luaF_any_increment (H : LuaHost) (B : Backend) (L : LuaStack) : List Request × Outcome :=
  -- extract
  match _self_any L with
  | .error e => ([], .raised e)
  | .ok _ =>
    -- arguments
    match luaL_checklstring H L 2 with
    | .error e => ([], .raised e)
    | .ok key =>
      let amount : Except LuaError LuaNumber :=
        if !lua_isnoneornil L 3 then luaL_checknumber H L 3 else .ok (.finite 1)
      match amount with
      | .error e => ([], .raised e)
      | .ok amount =>
        -- increment
        let result := B.tcrdbadddouble key amount
        if double_eq result (.finite (INT_MIN : Rat)) then
          ([.tcrdbadddouble key amount], _failure B.errmsg)
        else
          -- sum
          ([.tcrdbadddouble key amount], .returned [.value (.number result)])

/-! ## Descriptions used in the statements -/

/-- What the loop body of `_luatable2tclist` adds to the list for one entry. -/
def entryItems (full : Int) : LuaValue × LuaValue → TCLIST
  | (.string k, .string v) => if full ≠ 0 then [k, v] else [k]
  | (.string k, _) => [k]
  | (_, .string v) => if full = 0 then [v] else []
  | _ => []

/-- The number value written `n` in a Lua program, for an integer `n`. -/
def luaInt (n : Int) : LuaValue := .number (.finite (n : Rat))

/-- The string value written as the literal `s` in a Lua program. -/
def luaStr (s : String) : LuaValue := .string s.toList

/-- The table `{a=1, "x", "y", b=2}`, visited as `lua_next` does: the sequence part
first, then the named fields. -/
def mixedTable : LuaTable :=
  [(luaInt 1, luaStr "x"), (luaInt 2, luaStr "y"), (luaStr "a", luaInt 1), (luaStr "b", luaInt 2)]

/-- The table `{a="1", "x", "y", b="2"}`, visited as `lua_next` does: the sequence part
first, then the named fields. -/
def mixedStringTable : LuaTable :=
  [(luaInt 1, luaStr "x"), (luaInt 2, luaStr "y"), (luaStr "a", luaStr "1"),
   (luaStr "b", luaStr "2")]

/-- The table `{k1="v1", "v2", "v3", k4="v4", "v5"}` of the comment above
`_luatable2tclist`, visited in the order the comment writes it. -/
def documentedTable : List (LuaValue × ByteString) :=
  [(luaStr "k1", "v1".toList), (luaInt 1, "v2".toList), (luaInt 2, "v3".toList),
   (luaStr "k4", "v4".toList), (luaInt 3, "v5".toList)]

/-- The sequence table `{s1, s2, ...}` whose first index is `i`, visited in index order. -/
def seqTableFrom (i : Int) : List ByteString → LuaTable
  | [] => []
  | s :: rest => (luaInt i, .string s) :: seqTableFrom (i + 1) rest

/-- The sequence table `{s1, s2, ..., sn}`: keys `1..n`, visited in index order. -/
def seqTable (S : List ByteString) : LuaTable := seqTableFrom 1 S

/-- The table with the given string keys and string values, visited in the order given. -/
def strTable (es : List (ByteString × ByteString)) : LuaTable :=
  es.map (fun e => (LuaValue.string e.1, LuaValue.string e.2))

/-- The keys the tuple codec is specified for: a string, or an integer. -/
inductive TupleKey where
  | str (s : ByteString)
  | int (n : Int)
  deriving DecidableEq, Repr

/-- The Lua value of a tuple key. -/
def TupleKey.toValue : TupleKey → LuaValue
  | .str s => .string s
  | .int n => luaInt n

/-- The column name specified for a tuple key: a string verbatim, an integer as its
decimal text. -/
def TupleKey.columnName : TupleKey → ByteString
  | .str s => s
  | .int n => (toString n).toList

/-- The Lua table with the given keys and string values, visited in the order given. -/
def tupleTable (es : List (TupleKey × ByteString)) : LuaTable :=
  es.map (fun e => (e.1.toValue, LuaValue.string e.2))

/-- A host for evaluating examples: an integer-valued number is converted to its decimal
text, and no string is converted to a number. -/
def exampleHost : LuaHost where
  number2str := fun n =>
    match n with
    | .finite q => (toString q.num).toList
    | _ => "nan".toList
  str2number := fun _ => none

/-- A server for evaluating examples: it accepts every store request, knows no record,
and answers every list request with the empty list. -/
def exampleBackend : Backend where
  tcrdbput := fun _ _ => true
  tcrdbget := fun _ => none
  tcrdbmisc := fun _ _ _ => some []
  tcrdbadddouble := fun _ num => num
  tcrdbtblput := fun _ _ => true
  tcrdbtblputkeep := fun _ _ => true
  tcrdbtblputcat := fun _ _ => true
  tcrdbtblget := fun _ => none
  errmsg := "no record found".toList

/-- An open hash database object, as `_any_open` sets it up: the fields `__rdb` and
`__any` hold the connection. -/
def hashSelf : StackValue :=
  .tableOf [(luaStr "__rdb", .lightuserdata 1), (luaStr "__any", .lightuserdata 1)]

/-- An open table database object, as `_any_open` sets it up: the fields `__tdb` and
`__any` hold the connection. -/
def tableSelf : StackValue :=
  .tableOf [(luaStr "__tdb", .lightuserdata 1), (luaStr "__any", .lightuserdata 1)]

/-- The stack slot holding the string `s`. -/
def strSlot (s : ByteString) : StackValue := .value (.string s)

/-- What a call of `luaF_hash_get` that sends the key list `keys` does: it sends the one
request `getlist` with `keys`; when the server answers with a list, the call returns the
table `_tclist2luatable` with `keys == 1` builds from it; when the server answers with
no list, the call returns the failure values. -/
def GetsList (B : Backend) (keys : TCLIST) (call : List Request × Option Outcome) : Prop :=
  call.1 = [.tcrdbmisc "getlist" 0 keys] ∧
  (∀ items, B.tcrdbmisc "getlist" 0 keys = some items →
    ∃ r, _tclist2luatable items 1 = some r ∧ call.2 = some (.returned [.tableOf r])) ∧
  (B.tcrdbmisc "getlist" 0 keys = none → call.2 = some (_failure B.errmsg))

/-- A server that answers every increment with not-a-number, as it does for a key whose
stored value is not numeric. -/
def nanBackend : Backend :=
  { exampleBackend with tcrdbadddouble := fun _ _ => .nan }

/-! ## C strings and option names -/

/-- The C string at the start of a byte string: the bytes before the first NUL.  This is
what a `const char*` obtained from a Lua string designates. -/
def cstring (s : ByteString) : ByteString := s.takeWhile (fun c => c ≠ '\x00')

/-- `luaL_checkstring(L, narg)`: `luaL_checklstring` without the length, so that the
result is read as a C string. -/
def luaL_checkstring (H : LuaHost) (L : LuaStack) (narg : Nat) : Except LuaError ByteString :=
  match luaL_checklstring H L narg with
  | .error e => .error e
  | .ok s => .ok (cstring s)

/-- `islower` of `ctype.h`, in the C locale. -/
def islower (c : Char) : Bool := decide ('a' ≤ c ∧ c ≤ 'z')

/-- `toupper` of `ctype.h`, in the C locale. -/
def toupper (c : Char) : Char := if islower c then Char.ofNat (c.toNat - 32) else c

/-- The loop `while (*(++p)) if (islower(*p)) *p = toupper(*p);` over a C string. -/
def upcase (s : ByteString) : ByteString :=
  s.map (fun c => if islower c then toupper c else c)

/-- The step `if (strstr(s, lead) == s) s += 5;` for a five-byte `lead`. -/
def skipLead (lead : String) (s : ByteString) : ByteString :=
  if lead.toList.isPrefixOf s then s.drop 5 else s

/-- The search loop of `luaL_checkoption`: the index of the first name of `lst` equal to
`name`, counting from `i`. -/
def luaL_checkoption_loop (name : ByteString) : List String → Nat → Option Nat
  | [], _ => none
  | x :: rest, i => if x.toList = name then some i else luaL_checkoption_loop name rest (i + 1)

/-- `luaL_checkoption(L, narg, NULL, lst)` on the string `name` found at `narg`: the
index of `name` in `lst`, or an argument error. -/
def luaL_checkoption (name : ByteString) (lst : List String) : Except LuaError Nat :=
  match luaL_checkoption_loop name lst 0 with
  | some i => .ok i
  | none => .error (.message "invalid option")

/-- `lua_toboolean(L, index)`: false for `nil`, `false` and an absent argument. -/
def lua_toboolean (L : LuaStack) (index : Nat) : Bool :=
  match slotAt L index with
  | none => false
  | some (.value .nil) => false
  | some (.value (.boolean b)) => b
  | some _ => true

/-- `luaL_checkinteger(L, narg)`. -/
def luaL_checkinteger (H : LuaHost) (L : LuaStack) (narg : Nat) : Except LuaError Int :=
  match slotAt L narg with
  | some (.value v) => luaL_checkinteger_value H narg v
  | _ => .error (.typeError narg "number")

/-- Conversion of a `lua_Integer` to a 32-bit `int`: the low 32 bits, read as signed. -/
def toCInt (z : Int) : Int := (z + 2 ^ 31) % 2 ^ 32 - 2 ^ 31

/-- `luaL_checkint(L, narg)`: `(int)luaL_checkinteger(L, narg)`. -/
def luaL_checkint (H : LuaHost) (L : LuaStack) (narg : Nat) : Except LuaError Int :=
  match luaL_checkinteger H L narg with
  | .error e => .error e
  | .ok z => .ok (toCInt z)

/-- `lua_tointeger(L, index)`: 0 for an argument that is no number. -/
def lua_tointeger (H : LuaHost) (L : LuaStack) (index : Nat) : Int :=
  match slotAt L index with
  | some (.value v) =>
    match lua_tonumber H v with
    | some n => lua_number2integer n
    | none => 0
  | _ => 0

/-! ## Table store and queries: the library -/

/-- The enumeration constants of `tcrdb.h` the code uses.  Their values are not part of
`ttyrant.c`. -/
structure TcrdbH where
  RDBQCSTREQ : Nat
  RDBQCSTRINC : Nat
  RDBQCSTRBW : Nat
  RDBQCSTREW : Nat
  RDBQCSTRAND : Nat
  RDBQCSTROR : Nat
  RDBQCSTROREQ : Nat
  RDBQCSTRRX : Nat
  RDBQCNUMEQ : Nat
  RDBQCNUMGT : Nat
  RDBQCNUMGE : Nat
  RDBQCNUMLT : Nat
  RDBQCNUMLE : Nat
  RDBQCNUMBT : Nat
  RDBQCNUMOREQ : Nat
  RDBQCFTSPH : Nat
  RDBQCFTSAND : Nat
  RDBQCFTSOR : Nat
  RDBQCFTSEX : Nat
  RDBQCNEGATE : Nat
  RDBQCNOIDX : Nat
  RDBITLEXICAL : Nat
  RDBITDECIMAL : Nat
  RDBITTOKEN : Nat
  RDBITQGRAM : Nat
  RDBITOPT : Nat
  RDBITVOID : Nat
  RDBITKEEP : Nat

/-- A call into the `tcrdb` library made on a query object or a table database. -/
inductive LibCall where
  | tcrdbqryaddcond (name : ByteString) (op : Nat) (expr : ByteString)
  | tcrdbqrysetlimit (max skip : Int)
  | tcrdbtblsetindex (name : ByteString) (type : Nat)
  | tcrdbqrysearchget
  | tcrdbstat
  deriving DecidableEq, Repr

/-- What the server answers to the calls of `LibCall` that reach it, and the message of
its last error. -/
structure TableServer where
  tcrdbtblsetindex : ByteString → Nat → Bool
  tcrdbqrysearchget : TCLIST
  tcrdbstat : Option ByteString
  errmsg : ByteString

/-- The text `snprintf(buffer, 64, "%f", x)` would write without a limit; the C library
function is not part of `ttyrant.c`.  The returned size is the length of this text, and
the buffer receives its first 63 bytes. -/
structure CLib where
  snprintf_f : LuaNumber → ByteString

def _self_qry (L : LuaStack) : Except LuaError Nat :=
  _self L 1 "__qry" "Invalid «self», expected «ttyrant.query» instance!"

/-! ## `luaF_query_addcond` -/

/-- The table `operator_names` of `luaF_query_addcond`. -/
def operator_names : List String :=
  ["STREQ", "STRINC", "STRBW", "STREW", "STRAND", "STROR", "STROREQ", "STRRX",
   "NUMEQ", "NUMGT", "NUMGE", "NUMLT", "NUMLE", "NUMBT", "NUMOREQ",
   "FTSPH", "FTSAND", "FTSOR", "FTSEX"]

/-- The table `operator_values` of `luaF_query_addcond`, with its final 0. -/
def operator_values (K : TcrdbH) : List Nat :=
  [K.RDBQCSTREQ, K.RDBQCSTRINC, K.RDBQCSTRBW, K.RDBQCSTREW, K.RDBQCSTRAND, K.RDBQCSTROR,
   K.RDBQCSTROREQ, K.RDBQCSTRRX, K.RDBQCNUMEQ, K.RDBQCNUMGT, K.RDBQCNUMGE, K.RDBQCNUMLT,
   K.RDBQCNUMLE, K.RDBQCNUMBT, K.RDBQCNUMOREQ, K.RDBQCFTSPH, K.RDBQCFTSAND, K.RDBQCFTSOR,
   K.RDBQCFTSEX, 0]

/-- The C string read through a pointer to the Lua string `s` once the loop
`while (*(++p)) if (islower(*p)) *p = toupper(*p);` has run over the Lua string `name`.
The loop writes into the string itself, and Lua keeps a single copy of every string: a
string equal to `name` is the same memory, whose bytes before the first NUL are
upper-cased by then. -/
def cstringAfterUpcase (name s : ByteString) : ByteString :=
  if s = name then upcase (cstring name) else cstring s

/-- The steps "extract indicator", "make RDBQC optional" and "extract operator" of
`luaF_query_addcond`, on the C string `indicator` of the third argument. -/
def query_operator (indicator : ByteString) : Except LuaError Nat :=
  -- extract indicator
  let indicator1 := upcase indicator
  -- make "RDBQC" prefix optional
  let indicator2 := skipLead "RDBQC" indicator1
  -- extract operator
  luaL_checkoption indicator2 operator_names

/-- Add a filtering rule to a query object (`luaF_query_addcond`). -/
def luaF_query_addcond (K : TcrdbH) (C : CLib) (H : LuaHost) (L : LuaStack) :
    List LibCall × Outcome :=
  -- instance
  match _self_qry L with
  | .error e => ([], .raised e)
  | .ok _ =>
    -- column: `column` points at the Lua string of argument 2
    match luaL_checklstring H L 2 with
    | .error e => ([], .raised e)
    | .ok column =>
      let options : Nat :=
        (if lua_toboolean L 5 then K.RDBQCNEGATE else 0) |||
        (if lua_toboolean L 5 then K.RDBQCNOIDX else 0)
      -- extract indicator: `indicator` points at the Lua string of argument 3, which the
      -- loop upper-cases in place
      match luaL_checklstring H L 3 with
      | .error e => ([], .raised e)
      | .ok indicator =>
        match query_operator (cstring indicator) with
        | .error e => ([], .raised e)
        | .ok operator =>
          -- operand expression: NULL, or the text
          let expression : Except LuaError (Option ByteString) :=
            if lua_typeAt L 4 = LUA_TSTRING then
              match luaL_checklstring H L 4 with
              | .error e => .error e
              | .ok s => .ok (some (cstringAfterUpcase indicator s))
            else
              match luaL_checknumber H L 4 with
              | .error e => .error e
              | .ok n =>
                let text := C.snprintf_f n
                let size : Int := text.length
                if size ≥ 0 then .ok (some (text.take 63)) else .ok none
          match expression with
          | .error e => ([], .raised e)
          | .ok (some expression) =>
            -- execute
            ([.tcrdbqryaddcond (cstringAfterUpcase indicator column)
                ((operator_values K).getD operator 0 ||| options) expression],
             .returned [.value (.boolean true)])
          | .ok none => ([], .returned [.value (.boolean false)])

/-! ## `luaF_query_setlimit` -/

/-- Limit the query result set (`luaF_query_setlimit`). -/
def luaF_query_setlimit (H : LuaHost) (L : LuaStack) : List LibCall × Outcome :=
  -- instance
  match _self_qry L with
  | .error e => ([], .raised e)
  | .ok _ =>
    -- limits
    let limit : Except LuaError Int :=
      if !lua_isnoneornil L 2 then luaL_checkint H L 2 else .ok (-1)
    match limit with
    | .error e => ([], .raised e)
    | .ok limit =>
      let offset : Int := toCInt (lua_tointeger H L 3)
      -- apply
      ([.tcrdbqrysetlimit limit offset], .returned [.value (.boolean true)])

/-! ## `luaF_table_setindex` -/

/-- The table `type_names` of `luaF_table_setindex`. -/
def type_names : List String := ["LEXICAL", "DECIMAL", "TOKEN", "QGRAM", "OPT", "VOID"]

/-- The table `type_values` of `luaF_table_setindex`, with its final 0. -/
def type_values (K : TcrdbH) : List Nat :=
  [K.RDBITLEXICAL, K.RDBITDECIMAL, K.RDBITTOKEN, K.RDBITQGRAM, K.RDBITOPT, K.RDBITVOID, 0]

/-- Create an index on a column (`luaF_table_setindex`). -/
def luaF_table_setindex (K : TcrdbH) (S : TableServer) (H : LuaHost) (L : LuaStack) :
    List LibCall × Outcome :=
  -- db
  match _self_tdb L with
  | .error e => ([], .raised e)
  | .ok _ =>
    -- column: `column` points at the Lua string of argument 2
    match luaL_checklstring H L 2 with
    | .error e => ([], .raised e)
    | .ok column =>
      let keep := lua_toboolean L 4
      -- extract indicator: `type` points at the Lua string of argument 3, which the loop
      -- upper-cases in place
      match luaL_checklstring H L 3 with
      | .error e => ([], .raised e)
      | .ok type0 =>
        let type1 := upcase (cstring type0)
        -- make "RDBIT" prefix optional
        let type2 := skipLead "RDBIT" type1
        -- extract operator
        match luaL_checkoption type2 type_names with
        | .error e => ([], .raised e)
        | .ok index =>
          -- execute: `column` is read now, after the loop
          let name := cstringAfterUpcase type0 column
          let flags : Nat := (type_values K).getD index 0 ||| (if keep then K.RDBITKEEP else 0)
          if !S.tcrdbtblsetindex name flags then
            ([.tcrdbtblsetindex name flags], _failure S.errmsg)
          else
            -- ready
            ([.tcrdbtblsetindex name flags], .returned [.value (.boolean true)])

/-! ## The query object -/

/-- The query object of the `tcrdb` library, as far as the statements need it: the
conditions added so far, in order, and the limit in force.  The library is not part of
`ttyrant.c`. -/
structure RDBQRY where
  conds : List (ByteString × Nat × ByteString)
  max : Int
  skip : Int
  deriving DecidableEq, Repr

/-- A new query object (`tcrdbqrynew`): no condition, no limit. -/
def tcrdbqrynew : RDBQRY := { conds := [], max := -1, skip := 0 }

/-- Effect of a library call on the query object it is made on: `tcrdbqryaddcond` adds a
condition after the existing ones, `tcrdbqrysetlimit` sets the limit, replacing the one
in force; the other calls leave the object as it is. -/
def RDBQRY.apply (qry : RDBQRY) : LibCall → RDBQRY
  | .tcrdbqryaddcond name op expr => { qry with conds := qry.conds ++ [(name, op, expr)] }
  | .tcrdbqrysetlimit max skip => { qry with max := max, skip := skip }
  | _ => qry

/-- A sequence of calls of `luaF_query_setlimit` on one query object, one stack per
call: the object after the last call, and the outcomes of the calls in order. -/
def setlimitCalls (H : LuaHost) : RDBQRY → List LuaStack → RDBQRY × List Outcome
  | qry, [] => (qry, [])
  | qry, L :: rest =>
    let call := luaF_query_setlimit H L
    let next := setlimitCalls H (call.1.foldl RDBQRY.apply qry) rest
    (next.1, call.2 :: next.2)

/-! ## `luaF_query_searchget` -/

/-- A Lua table whose values are tables: its entries in the order they were stored. -/
abbrev TupleTable := List (LuaValue × LuaTable)

/-- Assignment `t[k] = v` of a table value (`lua_settable`): an existing key keeps its
place and gets the new value, a new key is entered after the existing ones. -/
def lua_settable_tuple (t : TupleTable) (k : LuaValue) (v : LuaTable) : TupleTable :=
  if t.any (fun e => e.1 = k) then t.map (fun e => if e.1 = k then (k, v) else e)
  else t ++ [(k, v)]

/-- The loop of `tcstrsplit2` of Tokyo Cabinet over the bytes of the region still to be
read; `token` holds the bytes of the current token.  A token ends at a NUL or at the end
of the region, so that a region with `n` NUL bytes gives `n + 1` tokens. -/
def tcstrsplit2_loop : ByteString → ByteString → TCLIST
  | [], token => [token]
  | c :: rest, token =>
    if c = '\x00' then token :: tcstrsplit2_loop rest []
    else tcstrsplit2_loop rest (token ++ [c])

/-- Split a region into the tokens separated by NUL bytes (`tcstrsplit2(ptr, size)`,
with `region` the `size` bytes at `ptr`). -/
def tcstrsplit2 (region : ByteString) : TCLIST := tcstrsplit2_loop region []

/-- The region `tcstrsplit2(item + 1, itemsz)` reads: `itemsz` bytes from the second byte
of the item on, the last of them being the NUL the list library keeps after every
item. -/
def searchget_region (item : ByteString) : ByteString :=
  ((item ++ ['\x00']).drop 1).take item.length

/-- The `for (; count > 0; count--)` loop of `luaF_query_searchget`.  `none` stands for a
NULL item handed to `lua_pushlstring`. -/
def luaF_query_searchget_loop : Nat → TCLIST → TupleTable → Option TupleTable
  | 0, _, t => some t
  | count + 1, items, t =>
    -- tuple
    match tclistshift items with
    | none => none
    | some (item, items1) =>
      let columns := tcstrsplit2 (searchget_region item)
      -- key/values
      match tclistshift columns with
      | none => none
      | some (pkey, columns1) =>
        match _tclist2luatable columns1 1 with
        | none => none
        | some tuple =>
          -- store
          luaF_query_searchget_loop count items1 (lua_settable_tuple t (.string pkey) tuple)

/-- Get the tuples which correspond to the query object (`luaF_query_searchget`): the
table it returns, or the error it raises; `none` stands for undefined behaviour. -/
def luaF_query_searchget (S : TableServer) (L : LuaStack) :
    List LibCall × Option (Except LuaError TupleTable) :=
  -- instance
  match _self_qry L with
  | .error e => ([], some (.error e))
  | .ok _ =>
    -- execute
    let items := S.tcrdbqrysearchget
    let count := tclistnum items
    -- traverse
    ([.tcrdbqrysearchget], (luaF_query_searchget_loop count items []).map (fun t => .ok t))

/-! ## `luaF_any_stat` -/

/-- The parsing loop `while (*p2)` of `luaF_any_stat` over the bytes from `p2` on;
`token` holds the bytes from `p1` up to `p2`.  The text ends at its first NUL. -/
def luaF_any_stat_loop : ByteString → ByteString → TCLIST → TCLIST
  | [], _, list => list
  | c :: rest, token, list =>
    if c = '\x00' then list
    else if c = '\t' ∨ c = '\n' then luaF_any_stat_loop rest [] (tclistpush list token)
    else luaF_any_stat_loop rest (token ++ [c]) list

/-- Get database status (`luaF_any_stat`).  An outcome of `none` stands for undefined
behaviour. -/
def luaF_any_stat (S : TableServer) (L : LuaStack) : List LibCall × Option Outcome :=
  -- extract/execute
  match _self_any L with
  | .error e => ([], some (.raised e))
  | .ok _ =>
    match S.tcrdbstat with
    | none => ([.tcrdbstat], some (_failure S.errmsg))
    | some stats =>
      -- parse
      let list := luaF_any_stat_loop stats [] []
      ([.tcrdbstat], (_tclist2luatable list 1).map (fun t => .returned [.tableOf t]))

/-! ## Further descriptions used in the statements -/

/-- The key/value pairs a list holds from its start; an unpaired last item is left out. -/
def pairsOf : TCLIST → List (ByteString × ByteString)
  | k :: v :: rest => (k, v) :: pairsOf rest
  | _ => []

/-- The table in which the given pairs have been stored one after the other, starting
from the table `t`. -/
def storePairs (t : LuaTable) (ps : List (ByteString × ByteString)) : LuaTable :=
  ps.foldl (fun t p => lua_settable t (.string p.1) (.string p.2)) t

/-- The status text made of one line `key TAB value LF` per pair. -/
def statText (lines : List (ByteString × ByteString)) : ByteString :=
  lines.flatMap (fun l => l.1 ++ '\t' :: (l.2 ++ ['\n']))

/-- An open query object, as `luaF_query_new` sets it up: the field `__qry` holds the
query. -/
def querySelf : StackValue := .tableOf [(luaStr "__qry", .lightuserdata 2)]

/-- A table server for evaluating examples: it accepts every index, finds the two rows
`k1` (columns `name`, `age`) and `k2` (no column), and reports two status lines followed
by an unfinished one. -/
def exampleServer : TableServer where
  tcrdbtblsetindex := fun _ _ => true
  tcrdbqrysearchget :=
    ["\x00k1\x00name\x00alice\x00age\x0030".toList, "\x00k2".toList]
  tcrdbstat := some "version\t1.1.40\nrnum\t7\npartial".toList
  errmsg := "miscellaneous error".toList

/-- The fields of a result row: the primary key, then each column name followed by its
value. -/
def rowFields (pkey : ByteString) (cols : List (ByteString × ByteString)) : List ByteString :=
  pkey :: cols.flatMap (fun c => [c.1, c.2])

/-- The given fields with one NUL byte between neighbours. -/
def joinNul : List ByteString → ByteString
  | [] => []
  | [f] => f
  | f :: g :: rest => f ++ '\x00' :: joinNul (g :: rest)

/-- The bytes of a result row of `tcrdbqrysearchget`: one NUL byte, then the fields
separated by NUL bytes. -/
def rowItem (pkey : ByteString) (cols : List (ByteString × ByteString)) : ByteString :=
  '\x00' :: joinNul (rowFields pkey cols)

/-- An argument of `setlimit` as written in a Lua program: `nil`, or an integer. -/
def limitSlot : Option Int → StackValue
  | none => .value .nil
  | some n => .value (luaInt n)

/-- The stack of the call `query:setlimit(args...)`. -/
def limitStack (self : StackValue) (args : List (Option Int)) : LuaStack :=
  self :: args.map limitSlot

/-- The count a call of `setlimit` asks for: its first argument, and -1 when that is
omitted or `nil`. -/
def limitOf : List (Option Int) → Int
  | some n :: _ => n
  | _ => -1

/-- The offset a call of `setlimit` asks for: its second argument, and 0 when that is
omitted or `nil`. -/
def offsetOf : List (Option Int) → Int
  | _ :: some n :: _ => n
  | _ => 0

/-- The integers a C `int` of 32 bits holds. -/
def fitsInt (n : Int) : Prop := -2 ^ 31 ≤ n ∧ n < 2 ^ 31

/-- The values the constants have in `tcrdb.h` of Tokyo Tyrant, which takes them from
`tctdb.h` of Tokyo Cabinet; used to evaluate examples. -/
def tcrdbH : TcrdbH where
  RDBQCSTREQ := 0
  RDBQCSTRINC := 1
  RDBQCSTRBW := 2
  RDBQCSTREW := 3
  RDBQCSTRAND := 4
  RDBQCSTROR := 5
  RDBQCSTROREQ := 6
  RDBQCSTRRX := 7
  RDBQCNUMEQ := 8
  RDBQCNUMGT := 9
  RDBQCNUMGE := 10
  RDBQCNUMLT := 11
  RDBQCNUMLE := 12
  RDBQCNUMBT := 13
  RDBQCNUMOREQ := 14
  RDBQCFTSPH := 15
  RDBQCFTSAND := 16
  RDBQCFTSOR := 17
  RDBQCFTSEX := 18
  RDBQCNEGATE := 2 ^ 24
  RDBQCNOIDX := 2 ^ 25
  RDBITLEXICAL := 0
  RDBITDECIMAL := 1
  RDBITTOKEN := 2
  RDBITQGRAM := 3
  RDBITOPT := 9998
  RDBITVOID := 9999
  RDBITKEEP := 2 ^ 24

/-- A C library for evaluating examples: `%f` of an integer-valued number is its decimal
text followed by six zero decimals. -/
def exampleCLib : CLib where
  snprintf_f := fun n =>
    match n with
    | .finite q => (toString q.num).toList ++ ".000000".toList
    | _ => "nan".toList

/-- The option bits `luaF_query_addcond` computes from its stack. -/
def addcondOptions (K : TcrdbH) (L : LuaStack) : Nat :=
  (if lua_toboolean L 5 then K.RDBQCNEGATE else 0) |||
  (if lua_toboolean L 5 then K.RDBQCNOIDX else 0)

/-! ## Traversal order of a Lua 5.1 table with string keys

`lua_next` visits the hash part of a table node by node.  Where a key sits is decided by
`ltable.c` and `lstring.c` of the Lua 5.1 core, which are not part of `ttyrant.c`; this
section follows them for a table without array part whose keys are strings and whose
values are never `nil`, which is what `luaF_table_get` builds.  A node is free when its
key is `nil`; only the keys are kept. -/

/-- The loop `for (l1 = l; l1 >= step; l1 -= step) h = h ^ ((h<<5)+(h>>2)+str[l1-1]);` of
`luaS_newlstr`, on 32-bit unsigned integers. -/
def luaS_hash_loop (str : ByteString) (step : Nat) : Nat → Nat → Nat → Nat
  | 0, _, h => h
  | fuel + 1, l1, h =>
    if l1 ≥ step then
      luaS_hash_loop str step fuel (l1 - step)
        (h ^^^ (((h <<< 5) + (h >>> 2) + (str.getD (l1 - 1) '\x00').toNat) % 2 ^ 32))
    else h

/-- The hash `luaS_newlstr` gives a string: seeded with the length, over every
`(l >> 5) + 1`-th byte from the last one down. -/
def luaS_hash (str : ByteString) : Nat :=
  let l := str.length
  let step := (l >>> 5) + 1
  luaS_hash_loop str step l l l

/-- A node of the hash part: its key (`none` for `nil`) and the index of the next node
of its chain (`none` for NULL). -/
structure Node where
  key : Option ByteString
  next : Option Nat
  deriving DecidableEq, Repr

/-- The hash part of a table: the node vector (empty for the shared `dummynode`) and the
index `lastfree` points at. -/
structure HashPart where
  node : List Node
  lastfree : Nat
  deriving DecidableEq, Repr

/-- The number of binary digits of `x`: `luaO_log2(x) + 1`. -/
def bitLength : Nat → Nat → Nat
  | 0, _ => 0
  | fuel + 1, x => if x = 0 then 0 else bitLength fuel (x / 2) + 1

/-- `ceillog2(x)`: `luaO_log2(x - 1) + 1`. -/
def ceillog2 (x : Nat) : Nat := bitLength x (x - 1)

/-- `setnodevector(L, t, size)`: a vector of `2 ^ ceillog2(size)` free nodes, all
positions free; no vector for size 0. -/
def setnodevector (size : Nat) : HashPart :=
  if size = 0 then { node := [], lastfree := 0 }
  else
    let n := 2 ^ ceillog2 size
    { node := List.replicate n { key := none, next := none }, lastfree := n }

/-- The node at an index. -/
def nodeAt (t : HashPart) (i : Nat) : Node := t.node.getD i { key := none, next := none }

/-- `mainposition(t, key)` for a string key: its hash modulo the size of the vector. -/
def mainposition (t : HashPart) (key : ByteString) : Nat := luaS_hash key % t.node.length

/-- `getfreepos(t)`: `while (t->lastfree-- > t->node) if (ttisnil(gkey(t->lastfree)))
return t->lastfree;`, and NULL when the loop ends. -/
def getfreepos : List Node → Nat → Option Nat
  | _, 0 => none
  | node, lastfree + 1 =>
    if (node.getD lastfree { key := none, next := none }).key = none then some lastfree
    else getfreepos node lastfree

/-- The loop `while (gnext(othern) != mp) othern = gnext(othern);` of `newkey`. -/
def previousOf (t : HashPart) (mp : Nat) : Nat → Nat → Nat
  | 0, othern => othern
  | fuel + 1, othern =>
    if (nodeAt t othern).next = some mp then othern
    else
      match (nodeAt t othern).next with
      | some n => previousOf t mp fuel n
      | none => othern

/-- The part of `newkey(L, t, key)` that enters a new key without growing the table;
`none` when `getfreepos` finds no free node (or the table has no vector), where `newkey`
calls `rehash`. -/
def newkey_nogrow (t : HashPart) (key : ByteString) : Option HashPart :=
  if t.node = [] then none
  else
    let mp := mainposition t key
    match (nodeAt t mp).key with
    | none => some { t with node := t.node.set mp { nodeAt t mp with key := some key } }
    | some other =>
      match getfreepos t.node t.lastfree with
      | none => none
      | some n =>
        let othern := mainposition t other
        if othern ≠ mp then
          -- colliding node is out of its main position: move it into the free position
          let prev := previousOf t mp t.node.length othern
          let node1 := t.node.set prev { nodeAt t prev with next := some n }
          let node2 := node1.set n (nodeAt t mp)
          let node3 := node2.set mp { key := some key, next := none }
          some { node := node3, lastfree := n }
        else
          -- colliding node is in its own main position: new node goes into the free position
          let node1 := t.node.set n { key := some key, next := (nodeAt t mp).next }
          let node2 := node1.set mp { nodeAt t mp with next := some n }
          some { node := node2, lastfree := n }

/-- `numusehash`: the number of nodes in use. -/
def numusehash (t : HashPart) : Nat := (t.node.filter (fun nd => nd.key.isSome)).length

/-- `resize(L, t, 0, nhsize)`: a new vector, into which the old nodes are entered again
from the last one to the first. -/
def luaH_resize (t : HashPart) (nhsize : Nat) : HashPart :=
  t.node.reverse.foldl
    (fun t1 nd =>
      match nd.key with
      | none => t1
      | some k => (newkey_nogrow t1 k).getD t1)
    (setnodevector nhsize)

/-- `newkey(L, t, key)`: when no node is free, `rehash` resizes the hash part to the
number of keys in use plus one, and the key is entered in the grown table. -/
def newkey (t : HashPart) (key : ByteString) : HashPart :=
  match newkey_nogrow t key with
  | some t1 => t1
  | none =>
    let t2 := luaH_resize t (numusehash t + 1)
    (newkey_nogrow t2 key).getD t2

/-- `luaH_set(L, t, key)` followed by the store of a non-nil value: a key already
present keeps its node, a new key gets one from `newkey`. -/
def luaH_set (t : HashPart) (key : ByteString) : HashPart :=
  if t.node.any (fun nd => nd.key = some key) then t else newkey t key

/-- The order in which `lua_next` visits the keys: node by node. -/
def luaH_order (t : HashPart) : List ByteString := t.node.filterMap (fun nd => nd.key)

/-- The table a constructor `{k1 = v1, ..., kn = vn}` with string values builds: a hash
part sized for `n` keys, in which the fields are stored in the order written. -/
def luaH_constructor (keys : List ByteString) : HashPart :=
  keys.foldl luaH_set (setnodevector keys.length)

/-- The loop of `luaF_table_get` (see `luaF_table_get_loop`) with the new table kept as
its hash part. -/
def luaF_table_get_hash_loop (tuple : TCMAP) : List ByteString → HashPart → Option HashPart
  | [], t => some t
  | col :: cols, t =>
    match tcmapget tuple col with
    | none => none
    | some _ => luaF_table_get_hash_loop tuple cols (luaH_set t col)

/-- The order in which `lua_next` visits the columns of the table `luaF_table_get` builds
from a tuple: `lua_newtable`, one `lua_settable` per column in the order of the tuple,
then the traversal. -/
def luaF_table_get_order (tuple : TCMAP) : Option (List ByteString) :=
  (luaF_table_get_hash_loop tuple (tuple.map (fun r => r.1)) (setnodevector 0)).map luaH_order

/-! # Theorems -/

/-! ## `_luatable2tclist` -/

theorem luatable2tclist_loop_eq (full : Int) (t : LuaTable) (acc : TCLIST) :
    _luatable2tclist_loop full t acc = acc ++ t.flatMap (entryItems full) := by
  induction t generalizing acc with
  | nil => simp [_luatable2tclist_loop]
  | cons e rest ih =>
    obtain ⟨k, v⟩ := e
    cases k <;> cases v <;>
      simp [_luatable2tclist_loop, ih, entryItems, tclistpush, List.flatMap_cons] <;>
      split <;> simp_all

theorem luatable2tclist_eq (full : Int) (t : LuaTable) :
    _luatable2tclist t full = t.flatMap (entryItems full) := by
  simp [_luatable2tclist, luatable2tclist_loop_eq]

theorem flatMap_congr_mem {α β : Type} (l : List α) (f g : α → List β)
    (h : ∀ a ∈ l, f a = g a) : l.flatMap f = l.flatMap g := by
  induction l with
  | nil => rfl
  | cons a l ih =>
    simp only [List.flatMap_cons]
    rw [h a (List.mem_cons_self _ _), ih (fun b hb => h b (List.mem_cons_of_mem _ hb))]

theorem luatable2tclist_length_perm (full : Int) (t t' : LuaTable) (h : t.Perm t') :
    (_luatable2tclist t full).length = (_luatable2tclist t' full).length := by
  rw [luatable2tclist_eq, luatable2tclist_eq]
  exact (List.Perm.flatMap_right _ h).length_eq

/-- C1 (as stated, refuted): on `{a=1, "x", "y", b=2}`, whose entries without a string
key all have string values, `_luatable2tclist` with `full == 0` returns
`x, y, a, b` and not `x, y`: the string keys are part of the list.  In whatever order
the four entries are visited, the list has four items. -/
theorem flatten_values_only_counterexample :
    (∀ e ∈ mixedTable, (∀ k, e.1 ≠ .string k) → ∃ s, e.2 = .string s) ∧
    _luatable2tclist mixedTable 0 = ["x".toList, "y".toList, "a".toList, "b".toList] ∧
    _luatable2tclist mixedTable 0 ≠ ["x".toList, "y".toList] ∧
    ∀ t : LuaTable, t.Perm mixedTable → _luatable2tclist t 0 ≠ ["x".toList, "y".toList] := by
  refine ⟨?_, by decide, by decide, ?_⟩
  · intro e he hk
    simp only [mixedTable, List.mem_cons, List.mem_singleton, List.not_mem_nil, or_false] at he
    rcases he with rfl | rfl | rfl | rfl
    · exact ⟨_, rfl⟩
    · exact ⟨_, rfl⟩
    · exact absurd rfl (hk _)
    · exact absurd rfl (hk _)
  · intro t ht heq
    have hlen := luatable2tclist_length_perm 0 t mixedTable ht
    rw [heq] at hlen
    revert hlen
    decide

/-- C1 (amended): for every table, `_luatable2tclist` with `full == 0` returns, entry by
entry in iteration order, the key of an entry with a string key and the value of an
entry without one when that value is a string; in particular, when the entries without
a string key all have string values, the list holds every such value and, in between,
the keys of the entries with a string key. -/
theorem luatable2tclist_values_only (t : LuaTable) :
    _luatable2tclist t 0 = t.flatMap (fun e =>
      match e with
      | (.string k, _) => [k]
      | (_, .string v) => [v]
      | _ => []) := by
  rw [luatable2tclist_eq]
  apply flatMap_congr_mem
  rintro ⟨k, v⟩ _
  cases k <;> cases v <;> simp [entryItems]

/-- C1 (amended), at `{a=1, "x", "y", b=2}`: the list is `x, y, a, b`. -/
theorem luatable2tclist_values_only_witness :
    _luatable2tclist mixedTable 0 = ["x".toList, "y".toList, "a".toList, "b".toList] := by
  rw [luatable2tclist_values_only mixedTable]
  decide

/-- C2 (as stated, refuted): on `{a=1, "x", "y", b=2}` `_luatable2tclist` with
`full == 1` returns `a, b` and not `a, 1, b, 2` (in whatever order the four entries are
visited, the list has two items), and on `{a=1}` it returns the one item `a`, a list of
odd length: a value that is a number is not converted, and its key is pushed all the
same. -/
theorem flatten_key_value_counterexample :
    _luatable2tclist mixedTable 1 = ["a".toList, "b".toList] ∧
    _luatable2tclist mixedTable 1 ≠ ["a".toList, "1".toList, "b".toList, "2".toList] ∧
    (∀ t : LuaTable, t.Perm mixedTable →
      _luatable2tclist t 1 ≠ ["a".toList, "1".toList, "b".toList, "2".toList]) ∧
    _luatable2tclist [(luaStr "a", luaInt 1)] 1 = ["a".toList] ∧
    ¬ 2 ∣ (_luatable2tclist [(luaStr "a", luaInt 1)] 1).length := by
  refine ⟨by decide, by decide, ?_, by decide, by decide⟩
  intro t ht heq
  have hlen := luatable2tclist_length_perm 1 t mixedTable ht
  rw [heq] at hlen
  revert hlen
  decide

/-- C2 (amended): for every table whose entries with a string key all have string
values, `_luatable2tclist` with `full == 1` returns, for each entry with a string key in
iteration order, the key immediately followed by the value, and nothing for the other
entries; the list has even length. -/
theorem luatable2tclist_key_value (t : LuaTable)
    (hval : ∀ e ∈ t, (∃ k, e.1 = .string k) → ∃ s, e.2 = .string s) :
    _luatable2tclist t 1 = t.flatMap (fun e =>
      match e with
      | (.string k, .string v) => [k, v]
      | _ => []) ∧
    2 ∣ (_luatable2tclist t 1).length := by
  have h : _luatable2tclist t 1 = t.flatMap (fun e =>
      match e with
      | (.string k, .string v) => [k, v]
      | _ => []) := by
    rw [luatable2tclist_eq]
    apply flatMap_congr_mem
    rintro ⟨k, v⟩ he
    have hv := hval _ he
    cases k <;> cases v <;> simp [entryItems] at hv ⊢
  refine ⟨h, ?_⟩
  rw [h]
  clear h hval
  induction t with
  | nil => simp
  | cons e rest ih =>
    obtain ⟨k, v⟩ := e
    rw [List.flatMap_cons, List.length_append]
    apply Dvd.dvd.add _ ih
    cases k <;> cases v <;> simp

/-- C2 (amended), at `{a="1", "x", "y", b="2"}`: the list is `a, 1, b, 2`. -/
theorem luatable2tclist_key_value_witness :
    _luatable2tclist mixedStringTable 1
      = ["a".toList, "1".toList, "b".toList, "2".toList] ∧
    2 ∣ (_luatable2tclist mixedStringTable 1).length := by
  have h := luatable2tclist_key_value mixedStringTable (by
    intro e he _
    simp only [mixedStringTable, List.mem_cons, List.mem_singleton, List.not_mem_nil,
      or_false] at he
    rcases he with rfl | rfl | rfl | rfl <;> exact ⟨_, rfl⟩)
  exact ⟨by rw [h.1]; decide, h.2⟩

/-- C3: for every table whose values are all strings, `_luatable2tclist` follows the
rules of its doc comment entry by entry in iteration order: with `full == 0` an entry
with a string key gives its key and any other entry its value; with `full == 1` an
entry with a string key gives its key then its value and any other entry nothing. -/
theorem luatable2tclist_documented_rules (es : List (LuaValue × ByteString)) :
    _luatable2tclist (es.map (fun e => (e.1, LuaValue.string e.2))) 0
      = es.flatMap (fun e =>
          match e.1 with
          | .string k => [k]
          | _ => [e.2]) ∧
    _luatable2tclist (es.map (fun e => (e.1, LuaValue.string e.2))) 1
      = es.flatMap (fun e =>
          match e.1 with
          | .string k => [k, e.2]
          | _ => []) := by
  constructor
  · rw [luatable2tclist_eq]
    induction es with
    | nil => rfl
    | cons e rest ih =>
      obtain ⟨k, s⟩ := e
      simp only [List.map_cons, List.flatMap_cons, ih]
      cases k <;> simp [entryItems]
  · rw [luatable2tclist_eq]
    induction es with
    | nil => rfl
    | cons e rest ih =>
      obtain ⟨k, s⟩ := e
      simp only [List.map_cons, List.flatMap_cons, ih]
      cases k <;> simp [entryItems]

/-- C3, at the table `{k1=v1, v2, v3, k4=v4, v5}` of the doc comment: `full == 0` gives
`k1, v2, v3, k4, v5` and `full == 1` gives `k1, v1, k4, v4`. -/
theorem luatable2tclist_documented_rules_witness :
    _luatable2tclist (documentedTable.map (fun e => (e.1, LuaValue.string e.2))) 0
      = ["k1".toList, "v2".toList, "v3".toList, "k4".toList, "v5".toList] ∧
    _luatable2tclist (documentedTable.map (fun e => (e.1, LuaValue.string e.2))) 1
      = ["k1".toList, "v1".toList, "k4".toList, "v4".toList] := by
  have h := luatable2tclist_documented_rules documentedTable
  exact ⟨by rw [h.1]; decide, by rw [h.2]; decide⟩

/-! ## `_tclist2luatable` after `_luatable2tclist` -/

theorem lua_settable_new (t : LuaTable) (k v : LuaValue) (hv : v ≠ .nil)
    (hk : ∀ e ∈ t, e.1 ≠ k) : lua_settable t k v = t ++ [(k, v)] := by
  have hany : t.any (fun e => decide (e.1 = k)) = false := by
    rw [List.any_eq_false]
    intro e he
    simpa using hk e he
  simp [lua_settable, hv, hany]

theorem luaInt_injective {i j : Int} (h : luaInt i = luaInt j) : i = j := by
  simp only [luaInt, LuaValue.number.injEq, LuaNumber.finite.injEq] at h
  exact_mod_cast h

theorem seqTableFrom_keys (S : List ByteString) (i : Int) :
    ∀ e ∈ seqTableFrom i S, ∃ j, i ≤ j ∧ e.1 = luaInt j := by
  induction S generalizing i with
  | nil => simp [seqTableFrom]
  | cons s rest ih =>
    intro e he
    simp only [seqTableFrom, List.mem_cons] at he
    rcases he with rfl | he
    · exact ⟨i, le_refl _, rfl⟩
    · obtain ⟨j, hj, hej⟩ := ih (i + 1) e he
      exact ⟨j, by omega, hej⟩

theorem luatable2tclist_seqTableFrom (S : List ByteString) (i : Int) :
    (seqTableFrom i S).flatMap (entryItems 0) = S := by
  induction S generalizing i with
  | nil => rfl
  | cons s rest ih => simp [seqTableFrom, List.flatMap_cons, entryItems, luaInt, ih]

theorem tclist2luatable_loop_sequence (S : List ByteString) (index : Int) (t : LuaTable)
    (ht : ∀ e ∈ t, ∃ j, j < index ∧ e.1 = luaInt j) :
    _tclist2luatable_loop 0 S.length S index t = some (t ++ seqTableFrom index S) := by
  induction S generalizing index t with
  | nil => simp [_tclist2luatable_loop, seqTableFrom]
  | cons s rest ih =>
    have hnew : lua_settable t (lua_pushinteger index) (.string s)
        = t ++ [(luaInt index, .string s)] := by
      apply lua_settable_new
      · simp
      · intro e he heq
        obtain ⟨j, hj, hej⟩ := ht e he
        rw [hej] at heq
        have := luaInt_injective heq
        omega
    simp only [List.length_cons, _tclist2luatable_loop, tclistshift, hnew]
    rw [if_neg (by simp), ih]
    · simp [seqTableFrom]
    · intro e he
      rcases List.mem_append.mp he with he | he
      · obtain ⟨j, hj, hej⟩ := ht e he
        exact ⟨j, by omega, hej⟩
      · simp only [List.mem_singleton] at he
        exact ⟨index, by omega, by rw [he]⟩

/-- C4: for every sequence `S` of byte strings, `_tclist2luatable` with `keys == 0`
applied to `_luatable2tclist` with `full == 0` of the table `{S[1], ..., S[n]}` (keys
`1..n` visited in index order) does not fail and yields that table again: the 1-based
sequence of the same length with the same item at every index. -/
theorem tclist2luatable_luatable2tclist_sequence (S : List ByteString) :
    _luatable2tclist (seqTable S) 0 = S ∧
    _tclist2luatable (_luatable2tclist (seqTable S) 0) 0 = some (seqTable S) := by
  have hflat : _luatable2tclist (seqTable S) 0 = S := by
    rw [luatable2tclist_eq, seqTable, luatable2tclist_seqTableFrom]
  refine ⟨hflat, ?_⟩
  rw [hflat]
  simp only [_tclist2luatable, tclistnum]
  rw [if_neg (by simp), Nat.div_one, tclist2luatable_loop_sequence S 1 [] (by simp)]
  simp [seqTable]

/-- C4, at the sequence `{"x", "y", "z"}`. -/
theorem tclist2luatable_luatable2tclist_sequence_witness :
    _tclist2luatable (_luatable2tclist
        [(luaInt 1, luaStr "x"), (luaInt 2, luaStr "y"), (luaInt 3, luaStr "z")] 0) 0
      = some [(luaInt 1, luaStr "x"), (luaInt 2, luaStr "y"), (luaInt 3, luaStr "z")] :=
  (tclist2luatable_luatable2tclist_sequence ["x".toList, "y".toList, "z".toList]).2

theorem strTable_of_string_entries (M : LuaTable)
    (hstr : ∀ e ∈ M, ∃ k v, e = (LuaValue.string k, LuaValue.string v)) :
    ∃ es, M = strTable es := by
  induction M with
  | nil => exact ⟨[], rfl⟩
  | cons e rest ih =>
    obtain ⟨k, v, rfl⟩ := hstr e (List.mem_cons_self _ _)
    obtain ⟨es, rfl⟩ := ih (fun e he => hstr e (List.mem_cons_of_mem _ he))
    exact ⟨(k, v) :: es, rfl⟩

theorem strTable_keys (es : List (ByteString × ByteString)) :
    (strTable es).map Prod.fst = (es.map Prod.fst).map LuaValue.string := by
  simp [strTable, Function.comp_def]

theorem strTable_nodup (es : List (ByteString × ByteString))
    (h : ((strTable es).map Prod.fst).Nodup) : (es.map Prod.fst).Nodup := by
  rw [strTable_keys] at h
  exact List.Nodup.of_map _ h

theorem luatable2tclist_strTable (es : List (ByteString × ByteString)) :
    _luatable2tclist (strTable es) 1 = es.flatMap (fun e => [e.1, e.2]) := by
  rw [luatable2tclist_eq]
  induction es with
  | nil => rfl
  | cons e rest ih =>
    have ih' : (strTable rest).flatMap (entryItems 1) = rest.flatMap (fun e => [e.1, e.2]) := ih
    simp only [strTable, List.map_cons, List.flatMap_cons] at ih' ⊢
    rw [ih']
    simp [entryItems]

theorem tclist2luatable_loop_pairs (es : List (ByteString × ByteString)) (index : Int)
    (t : LuaTable) (hnodup : (es.map Prod.fst).Nodup)
    (hnew : ∀ e ∈ es, ∀ r ∈ t, r.1 ≠ LuaValue.string e.1) :
    _tclist2luatable_loop 1 es.length (es.flatMap (fun e => [e.1, e.2])) index t
      = some (t ++ strTable es) := by
  induction es generalizing t with
  | nil => simp [_tclist2luatable_loop, strTable]
  | cons e rest ih =>
    obtain ⟨k, v⟩ := e
    have hset : lua_settable t (.string k) (.string v) = t ++ [(.string k, .string v)] :=
      lua_settable_new t _ _ (by simp) (hnew (k, v) (List.mem_cons_self _ _))
    simp only [List.map_cons, List.nodup_cons] at hnodup
    simp only [List.length_cons, List.flatMap_cons, List.cons_append, List.nil_append,
      _tclist2luatable_loop, tclistshift, hset]
    rw [if_pos (by decide), ih _ hnodup.2]
    · simp [strTable]
    · intro e he r hr
      rcases List.mem_append.mp hr with hr | hr
      · exact hnew e (List.mem_cons_of_mem _ he) r hr
      · simp only [List.mem_singleton] at hr
        subst hr
        intro heq
        simp only [LuaValue.string.injEq] at heq
        exact hnodup.1 (heq ▸ List.mem_map_of_mem Prod.fst he)

theorem length_flatMap_pairs (es : List (ByteString × ByteString)) :
    (es.flatMap (fun e => [e.1, e.2])).length = 2 * es.length := by
  induction es with
  | nil => rfl
  | cons e rest ih => simp [List.flatMap_cons, ih]; omega

/-- C5: for every mapping `M` whose keys are all strings, pairwise distinct as the keys
of a table are, and whose values are all strings, `_tclist2luatable` with `keys == 1`
applied to `_luatable2tclist` with `full == 1` of `M` does not fail and yields `M`
again: exactly the keys of `M`, each bound to its value in `M`. -/
theorem tclist2luatable_luatable2tclist_mapping (M : LuaTable)
    (hstr : ∀ e ∈ M, ∃ k v, e = (LuaValue.string k, LuaValue.string v))
    (hnodup : (M.map Prod.fst).Nodup) :
    _tclist2luatable (_luatable2tclist M 1) 1 = some M ∧
    ∀ k, (_tclist2luatable (_luatable2tclist M 1) 1).map (fun r => lua_rawget r k)
      = some (lua_rawget M k) := by
  obtain ⟨es, rfl⟩ := strTable_of_string_entries M hstr
  have hes := strTable_nodup es hnodup
  have h : _tclist2luatable (_luatable2tclist (strTable es) 1) 1 = some (strTable es) := by
    rw [luatable2tclist_strTable]
    simp only [_tclist2luatable, tclistnum, length_flatMap_pairs]
    rw [if_pos (by decide), Nat.mul_div_cancel_left _ (by decide : 0 < 2),
      tclist2luatable_loop_pairs es 1 [] hes (by simp)]
    simp
  exact ⟨h, fun k => by rw [h]; rfl⟩

/-- C5, at the mapping `{a="1", b="2"}`. -/
theorem tclist2luatable_luatable2tclist_mapping_witness :
    _tclist2luatable (_luatable2tclist (strTable [("a".toList, "1".toList),
        ("b".toList, "2".toList)]) 1) 1
      = some (strTable [("a".toList, "1".toList), ("b".toList, "2".toList)]) :=
  (tclist2luatable_luatable2tclist_mapping
    (strTable [("a".toList, "1".toList), ("b".toList, "2".toList)])
    (by
      intro e he
      simp only [strTable, List.map_cons, List.map_nil, List.mem_cons, List.mem_singleton,
        List.not_mem_nil, or_false] at he
      rcases he with rfl | rfl <;> exact ⟨_, _, rfl⟩)
    (by decide)).1

/-! ## Tuples: `_table_put` and `luaF_table_get` -/

theorem lua_number2integer_int (n : Int) (hlo : -2 ^ 63 ≤ n) (hhi : n < 2 ^ 63) :
    lua_number2integer (.finite (n : Rat)) = n := by
  have hz : Int.tdiv (n : Rat).num (n : Rat).den = n := by simp
  simp only [lua_number2integer, hz]
  rw [if_pos ⟨hlo, hhi⟩]

theorem table_put_tuple_fold (H : LuaHost) (B : Backend) (es : List (TupleKey × ByteString))
    (acc : TCMAP)
    (hrange : ∀ e ∈ es, ∀ n, e.1 = TupleKey.int n → -2 ^ 63 ≤ n ∧ n < 2 ^ 63) :
    _table_put_tuple H B (tupleTable es) acc
      = .ok (es.foldl (fun tuple e => tcmapput tuple e.1.columnName e.2) acc) := by
  induction es generalizing acc with
  | nil => rfl
  | cons e rest ih =>
    obtain ⟨k, v⟩ := e
    have ih' := fun acc => ih acc (fun e he => hrange e (List.mem_cons_of_mem _ he))
    cases k with
    | str s =>
      simp only [tupleTable, List.map_cons, TupleKey.toValue, _table_put_tuple,
        luaL_checklstring_value, lua_tolstring, List.foldl_cons, TupleKey.columnName]
      exact ih' _
    | int n =>
      obtain ⟨hlo, hhi⟩ := hrange (TupleKey.int n, v) (List.mem_cons_self _ _) n rfl
      have hconv : lua_number2integer (.finite (n : Rat)) = n :=
        lua_number2integer_int n hlo hhi
      have hsz : ¬ ((snprintf_li n).length : Int) < 0 := by omega
      simp only [tupleTable, List.map_cons, TupleKey.toValue, luaInt, _table_put_tuple,
        luaL_checkinteger_value, lua_tonumber, hconv, hsz, if_false,
        luaL_checklstring_value, lua_tolstring, List.foldl_cons, TupleKey.columnName]
      exact ih' _

theorem tcmapput_new (map : TCMAP) (key value : ByteString) (hk : ∀ r ∈ map, r.1 ≠ key) :
    tcmapput map key value = map ++ [(key, value)] := by
  have hany : map.any (fun r => decide (r.1 = key)) = false := by
    rw [List.any_eq_false]
    intro r hr
    simpa using hk r hr
  simp [tcmapput, hany]

theorem tcmapput_foldl_nodup (rs : List (ByteString × ByteString)) (acc : TCMAP)
    (hnodup : (rs.map Prod.fst).Nodup) (hnew : ∀ r ∈ rs, ∀ a ∈ acc, a.1 ≠ r.1) :
    rs.foldl (fun tuple r => tcmapput tuple r.1 r.2) acc = acc ++ rs := by
  induction rs generalizing acc with
  | nil => simp
  | cons r rest ih =>
    simp only [List.map_cons, List.nodup_cons] at hnodup
    rw [List.foldl_cons, tcmapput_new acc r.1 r.2 (hnew r (List.mem_cons_self _ _)),
      ih _ hnodup.2]
    · simp
    · intro r' hr' a ha
      rcases List.mem_append.mp ha with ha | ha
      · exact hnew r' (List.mem_cons_of_mem _ hr') a ha
      · simp only [List.mem_singleton] at ha
        subst ha
        intro heq
        exact hnodup.1 (heq ▸ List.mem_map_of_mem Prod.fst hr')

theorem ite_pair_fst {α β : Type} (c : Prop) [Decidable c] (a : α) (x y : β) :
    (if c then (a, x) else (a, y)).1 = a := by
  split <;> rfl

theorem self_tdb_cons (self : StackValue) (rest : LuaStack) :
    _self_tdb (self :: rest) = _self_tdb [self] := by
  simp [_self_tdb, _self, lua_istable, lua_typeAt, slotAt, lua_getfield, tableAt]

theorem table_put_request (H : LuaHost) (B : Backend) (self : StackValue) (db : Nat)
    (key : ByteString) (t : LuaTable) (tuple : TCMAP) (error : String) (kind : Int)
    (hself : _self_tdb [self] = .ok db) (htuple : _table_put_tuple H B t [] = .ok tuple) :
    (_table_put H B [self, .value (.string key), .tableOf t] error kind).1
      = [if kind = PUT_CAT then Request.tcrdbtblputcat key tuple
         else if kind = PUT_KEEP then Request.tcrdbtblputkeep key tuple
         else Request.tcrdbtblput key tuple] := by
  have hs : _self_tdb [self, .value (.string key), .tableOf t] = .ok db := by
    rw [self_tdb_cons, hself]
  have ht : lua_istable [self, .value (.string key), .tableOf t] 3 = true := by
    simp [lua_istable, lua_typeAt, slotAt]
  have hat : tableAt [self, .value (.string key), .tableOf t] 3 = t := by
    simp [tableAt, slotAt]
  have h2 : luaL_checklstring H [self, .value (.string key), .tableOf t] 2 = .ok key := rfl
  simp only [_table_put, hs, ht, hat, h2, htuple, Bool.not_true, Bool.false_eq_true, if_false]
  by_cases hcat : kind = PUT_CAT
  · simp only [hcat, if_true]
    exact ite_pair_fst _ _ _ _
  · by_cases hkeep : kind = PUT_KEEP
    · simp only [hcat, hkeep, if_true, if_false]
      exact ite_pair_fst _ _ _ _
    · simp only [hcat, hkeep, if_false]
      exact ite_pair_fst _ _ _ _

/-- C7: for every table given to `_table_put` whose keys are strings or integers of the
range of a C `long` and whose values are strings, the tuple is assembled by one
`tcmapput` per entry, in iteration order, that stores the value of the entry under its
column name: a string key byte for byte, an integer key `n` as the decimal text of `n`.
When these column names are pairwise distinct the tuple is the list of the entries, each
under its column name.  On an open table database `put`, `putcat` and `putkeep` send
that tuple to the server. -/
theorem table_put_tuple_column_names (H : LuaHost) (B : Backend)
    (es : List (TupleKey × ByteString))
    (hrange : ∀ e ∈ es, ∀ n, e.1 = TupleKey.int n → -2 ^ 63 ≤ n ∧ n < 2 ^ 63) :
    _table_put_tuple H B (tupleTable es) []
      = .ok (es.foldl (fun tuple e => tcmapput tuple e.1.columnName e.2) []) ∧
    ((es.map (fun e => e.1.columnName)).Nodup →
      _table_put_tuple H B (tupleTable es) []
        = .ok (es.map (fun e => (e.1.columnName, e.2)))) ∧
    (∀ (self : StackValue) (db : Nat) (key : ByteString), _self_tdb [self] = .ok db →
      (luaF_table_put H B [self, .value (.string key), .tableOf (tupleTable es)]).1
        = [.tcrdbtblput key (es.foldl (fun tuple e => tcmapput tuple e.1.columnName e.2) [])] ∧
      (luaF_table_putcat H B [self, .value (.string key), .tableOf (tupleTable es)]).1
        = [.tcrdbtblputcat key
            (es.foldl (fun tuple e => tcmapput tuple e.1.columnName e.2) [])] ∧
      (luaF_table_putkeep H B [self, .value (.string key), .tableOf (tupleTable es)]).1
        = [.tcrdbtblputkeep key
            (es.foldl (fun tuple e => tcmapput tuple e.1.columnName e.2) [])]) := by
  have h := table_put_tuple_fold H B es [] hrange
  refine ⟨h, fun hnodup => ?_, fun self db key hself => ⟨?_, ?_, ?_⟩⟩
  · rw [h]
    have hmap := tcmapput_foldl_nodup (es.map (fun e => (e.1.columnName, e.2))) []
      (by simpa [Function.comp_def] using hnodup) (by simp)
    rw [List.foldl_map] at hmap
    simpa using hmap
  · rw [luaF_table_put, table_put_request H B self db key _ _ _ _ hself h]
    rfl
  · rw [luaF_table_putcat, table_put_request H B self db key _ _ _ _ hself h]
    rfl
  · rw [luaF_table_putkeep, table_put_request H B self db key _ _ _ _ hself h]
    rfl

/-- C7, at the table `{[1]="x", [-12]="y", name="z"}`: the columns are `1`, `-12` and
`name`, and `put("k", ...)` sends them. -/
theorem table_put_tuple_column_names_witness :
    _table_put_tuple exampleHost exampleBackend
        [(luaInt 1, luaStr "x"), (luaInt (-12), luaStr "y"), (luaStr "name", luaStr "z")] []
      = .ok [("1".toList, "x".toList), ("-12".toList, "y".toList),
             ("name".toList, "z".toList)] ∧
    (luaF_table_put exampleHost exampleBackend [tableSelf, strSlot "k".toList, .tableOf
        [(luaInt 1, luaStr "x"), (luaInt (-12), luaStr "y"), (luaStr "name", luaStr "z")]]).1
      = [.tcrdbtblput "k".toList [("1".toList, "x".toList), ("-12".toList, "y".toList),
             ("name".toList, "z".toList)]] :=
  have h := table_put_tuple_column_names exampleHost exampleBackend
    [(.int 1, "x".toList), (.int (-12), "y".toList), (.str "name".toList, "z".toList)]
    (by
      intro e he n hn
      simp only [List.mem_cons, List.mem_singleton, List.not_mem_nil, or_false] at he
      rcases he with rfl | rfl | rfl
      · cases hn; decide
      · cases hn; decide
      · cases hn)
  ⟨h.2.1 (by decide), (h.2.2 tableSelf 1 "k".toList rfl).1⟩

theorem tcmapget_of_mem (rs : TCMAP) (hnodup : (rs.map Prod.fst).Nodup) :
    ∀ r ∈ rs, tcmapget rs r.1 = some r.2 := by
  induction rs with
  | nil => simp
  | cons a rest ih =>
    simp only [List.map_cons, List.nodup_cons] at hnodup
    intro r hr
    rcases List.mem_cons.mp hr with rfl | hr
    · simp [tcmapget]
    · have hne : a.1 ≠ r.1 := fun heq => hnodup.1 (heq ▸ List.mem_map_of_mem Prod.fst hr)
      have := ih hnodup.2 r hr
      simpa [tcmapget, List.find?_cons, hne] using this

theorem table_get_loop_eq (tuple : TCMAP) (rs : List (ByteString × ByteString)) (t : LuaTable)
    (hget : ∀ r ∈ rs, tcmapget tuple r.1 = some r.2)
    (hnodup : (rs.map Prod.fst).Nodup)
    (hnew : ∀ r ∈ rs, ∀ e ∈ t, e.1 ≠ LuaValue.string r.1) :
    luaF_table_get_loop tuple (rs.map (fun r => r.1)) t = some (t ++ strTable rs) := by
  induction rs generalizing t with
  | nil => simp [luaF_table_get_loop, strTable]
  | cons r rest ih =>
    simp only [List.map_cons, List.nodup_cons] at hnodup
    have hset : lua_settable t (.string r.1) (.string r.2) = t ++ [(.string r.1, .string r.2)] :=
      lua_settable_new t _ _ (by simp) (hnew r (List.mem_cons_self _ _))
    simp only [List.map_cons, luaF_table_get_loop, hget r (List.mem_cons_self _ _), hset]
    rw [ih _ (fun r' hr' => hget r' (List.mem_cons_of_mem _ hr')) hnodup.2]
    · simp [strTable]
    · intro r' hr' e he
      rcases List.mem_append.mp he with he | he
      · exact hnew r' (List.mem_cons_of_mem _ hr') e he
      · simp only [List.mem_singleton] at he
        subst he
        intro heq
        simp only [LuaValue.string.injEq] at heq
        exact hnodup.1 (heq ▸ List.mem_map_of_mem Prod.fst hr')

theorem table_get_table_nodup (rs : TCMAP) (hnodup : (rs.map Prod.fst).Nodup) :
    luaF_table_get_table rs = some (strTable rs) := by
  rw [luaF_table_get_table, table_get_loop_eq rs rs [] (tcmapget_of_mem rs hnodup) hnodup
    (by simp)]
  simp

theorem tupleTable_str (es : List (ByteString × ByteString)) :
    tupleTable (es.map (fun e => (TupleKey.str e.1, e.2))) = strTable es := by
  simp [tupleTable, strTable, TupleKey.toValue, Function.comp_def]

/-- C6 (as stated, refuted): the table `{a="1", e="2", b="3"}` of a Lua 5.1 program is
visited in the order `a, e, b`; table put builds the column map `a, e, b` from it; the
table that table get builds from this map, by storing `a`, `e` and `b` in turn in a new
table, is visited in the order `e, a, b`.  The columns and values are the same, their
order is not. -/
theorem table_get_order_counterexample :
    luaH_order (luaH_constructor ["a".toList, "e".toList, "b".toList])
      = ["a".toList, "e".toList, "b".toList] ∧
    _table_put_tuple exampleHost exampleBackend
        (strTable [("a".toList, "1".toList), ("e".toList, "2".toList),
          ("b".toList, "3".toList)]) []
      = .ok [("a".toList, "1".toList), ("e".toList, "2".toList), ("b".toList, "3".toList)] ∧
    luaF_table_get_order
        [("a".toList, "1".toList), ("e".toList, "2".toList), ("b".toList, "3".toList)]
      = some ["e".toList, "a".toList, "b".toList] ∧
    luaF_table_get_order
        [("a".toList, "1".toList), ("e".toList, "2".toList), ("b".toList, "3".toList)]
      ≠ some ["a".toList, "e".toList, "b".toList] := by
  refine ⟨by decide, rfl, by decide, by decide⟩

/-- C6 (amended): for every tuple `T` whose column names are strings, pairwise distinct
as the keys of a table are, and whose values are strings, the loop of `_table_put` builds
a column map from `T` without failing, which holds the columns of `T` with their values
in the order `T` is visited in; and the table `luaF_table_get` builds from that map,
without failing, binds every key to what `T` binds it to: the same columns with the same
values. -/
theorem table_get_put_same_columns (H : LuaHost) (B : Backend) (T : LuaTable)
    (hstr : ∀ e ∈ T, ∃ k v, e = (LuaValue.string k, LuaValue.string v))
    (hnodup : (T.map Prod.fst).Nodup) :
    ∃ tuple r, _table_put_tuple H B T [] = .ok tuple ∧
      strTable tuple = T ∧
      luaF_table_get_table tuple = some r ∧
      ∀ k, lua_rawget r k = lua_rawget T k := by
  obtain ⟨es, rfl⟩ := strTable_of_string_entries T hstr
  have hes := strTable_nodup es hnodup
  refine ⟨es, strTable es, ?_, rfl, table_get_table_nodup es hes, fun _ => rfl⟩
  have hrange : ∀ e ∈ es.map (fun e => (TupleKey.str e.1, e.2)), ∀ n,
      e.1 = TupleKey.int n → -2 ^ 63 ≤ n ∧ n < 2 ^ 63 := by
    intro e he n hn
    obtain ⟨r, _, rfl⟩ := List.mem_map.mp he
    cases hn
  rw [← tupleTable_str, table_put_tuple_fold H B _ [] hrange, List.foldl_map]
  simpa [TupleKey.columnName] using tcmapput_foldl_nodup es [] hes (by simp)

/-- C6 (amended), at the tuple `{a="1", e="2", b="3"}`. -/
theorem table_get_put_same_columns_witness :
    ∃ tuple r,
      _table_put_tuple exampleHost exampleBackend
        (strTable [("a".toList, "1".toList), ("e".toList, "2".toList),
          ("b".toList, "3".toList)]) []
        = .ok tuple ∧
      strTable tuple
        = strTable [("a".toList, "1".toList), ("e".toList, "2".toList),
            ("b".toList, "3".toList)] ∧
      luaF_table_get_table tuple = some r ∧
      ∀ k, lua_rawget r k
        = lua_rawget (strTable [("a".toList, "1".toList), ("e".toList, "2".toList),
            ("b".toList, "3".toList)]) k :=
  table_get_put_same_columns exampleHost exampleBackend
    (strTable [("a".toList, "1".toList), ("e".toList, "2".toList), ("b".toList, "3".toList)])
    (by
      intro e he
      simp only [strTable, List.map_cons, List.map_nil, List.mem_cons, List.mem_singleton,
        List.not_mem_nil, or_false] at he
      rcases he with rfl | rfl | rfl <;> exact ⟨_, _, rfl⟩)
    (by decide)

/-! ## Hash store -/

theorem self_cons (self : StackValue) (rest : LuaStack) (xyz error : String) :
    _self (self :: rest) 1 xyz error = _self [self] 1 xyz error := by
  simp [_self, lua_istable, lua_typeAt, slotAt, lua_getfield, tableAt]

theorem self_hdb_cons (self : StackValue) (rest : LuaStack) :
    _self_hdb (self :: rest) = _self_hdb [self] := self_cons self rest _ _

theorem self_any_cons (self : StackValue) (rest : LuaStack) :
    _self_any (self :: rest) = _self_any [self] := self_cons self rest _ _

theorem lualist2tclist_loop_strings (H : LuaHost) (done : LuaStack) (args : List ByteString)
    (acc : TCLIST) :
    _lualist2tclist_loop H (done ++ args.map strSlot) args.length (done.length + 1) acc
      = .ok (acc ++ args) := by
  induction args generalizing done acc with
  | nil => simp [_lualist2tclist_loop]
  | cons a rest ih =>
    have hslot : slotAt (done ++ (a :: rest).map strSlot) (done.length + 1)
        = some (strSlot a) := by
      simp only [slotAt, Nat.add_one_ne_zero, if_false, Nat.add_sub_cancel, List.map_cons]
      rw [List.get?_eq_getElem?, List.getElem?_append_right (le_refl _)]
      simp
    have hnext := ih (done ++ [strSlot a]) (tclistpush acc a)
    simp only [List.append_assoc, List.singleton_append, List.length_append,
      List.length_singleton] at hnext
    simp only [List.length_cons, _lualist2tclist_loop, luaL_checklstring, hslot, strSlot,
      luaL_checklstring_value, lua_tolstring]
    simp only [List.map_cons, strSlot] at hnext ⊢
    rw [hnext]
    simp [tclistpush]

theorem lualist2tclist_strings (H : LuaHost) (self : StackValue) (args : List ByteString) :
    _lualist2tclist H (self :: args.map strSlot) 2 = .ok args := by
  have h := lualist2tclist_loop_strings H [self] args []
  simpa [_lualist2tclist, lua_gettop] using h

theorem tclist2luatable_loop_keys_some (pairs : Nat) (items : TCLIST) (index : Int)
    (t : LuaTable) (hlen : 2 * pairs ≤ items.length) :
    ∃ r, _tclist2luatable_loop 1 pairs items index t = some r := by
  induction pairs generalizing items t with
  | zero => exact ⟨t, rfl⟩
  | succ n ih =>
    match items, hlen with
    | k :: v :: rest, hlen =>
      simp only [_tclist2luatable_loop, tclistshift]
      rw [if_pos (by decide)]
      exact ih rest _ (by simp only [List.length_cons] at hlen; omega)
    | [_], hlen => simp at hlen; omega
    | [], hlen => simp at hlen

theorem tclist2luatable_keys_some (items : TCLIST) :
    ∃ r, _tclist2luatable items 1 = some r := by
  simp only [_tclist2luatable, tclistnum]
  rw [if_pos (by decide)]
  exact tclist2luatable_loop_keys_some _ items 1 [] (by omega)

theorem istable_two_table (self : StackValue) (t : LuaTable) (rest : LuaStack) :
    lua_istable (self :: .tableOf t :: rest) 2 = true ∧
    tableAt (self :: .tableOf t :: rest) 2 = t := by
  simp [lua_istable, lua_typeAt, slotAt, tableAt]

theorem istable_two_strings (self : StackValue) (args : List ByteString) :
    lua_istable (self :: args.map strSlot) 2 = false := by
  cases args with
  | nil => simp [lua_istable, lua_typeAt, slotAt, LUA_TNONE, LUA_TTABLE]
  | cons a rest =>
    simp [lua_istable, lua_typeAt, slotAt, strSlot, lua_type, LUA_TSTRING, LUA_TTABLE]

/-- C8: on an open hash database, `luaF_hash_put` called with exactly two string
arguments sends the one request `tcrdbput` with that key and value and no `putlist`;
called with a table it sends the one request `putlist` with the whole list
`_luatable2tclist` with `full == 1` makes of the table, and no `tcrdbput`; called with
four or more string arguments it sends the one request `putlist` with all of them, and
no `tcrdbput`. -/
theorem hash_put_dispatch (H : LuaHost) (B : Backend) (self : StackValue) (db : Nat)
    (hself : _self_hdb [self] = .ok db) :
    (∀ key value : ByteString,
      (luaF_hash_put H B [self, strSlot key, strSlot value]).1 = [.tcrdbput key value]) ∧
    (∀ (t : LuaTable) (rest : LuaStack),
      (luaF_hash_put H B (self :: .tableOf t :: rest)).1
        = [.tcrdbmisc "putlist" 0 (_luatable2tclist t 1)]) ∧
    (∀ args : List ByteString, 4 ≤ args.length →
      (luaF_hash_put H B (self :: args.map strSlot)).1 = [.tcrdbmisc "putlist" 0 args]) := by
  refine ⟨?_, ?_, ?_⟩
  · intro key value
    have hs : _self_hdb [self, strSlot key, strSlot value] = .ok db := by
      rw [self_hdb_cons, hself]
    have ht : lua_istable [self, strSlot key, strSlot value] 2 = false :=
      istable_two_strings self [key, value]
    have h2 : luaL_checklstring H [self, strSlot key, strSlot value] 2 = .ok key := rfl
    have h3 : luaL_checklstring H [self, strSlot key, strSlot value] 3 = .ok value := rfl
    have htop : lua_gettop [self, strSlot key, strSlot value] = 3 := rfl
    simp only [luaF_hash_put, hs, ht, htop, h2, h3]
    exact ite_pair_fst _ _ _ _
  · intro t rest
    have hs : _self_hdb (self :: .tableOf t :: rest) = .ok db := by
      rw [self_hdb_cons, hself]
    obtain ⟨ht, hat⟩ := istable_two_table self t rest
    simp only [luaF_hash_put, hs, ht, hat]
    exact ite_pair_fst _ _ _ _
  · intro args hlen
    have hs : _self_hdb (self :: args.map strSlot) = .ok db := by
      rw [self_hdb_cons, hself]
    have htop : ¬ lua_gettop (self :: args.map strSlot) = 3 := by
      simp [lua_gettop]; omega
    simp only [luaF_hash_put, hs, istable_two_strings, htop, lualist2tclist_strings]
    exact ite_pair_fst _ _ _ _

/-- C8, on the example database: `put("k", "v")` sends `tcrdbput`, `put{a="1", b="2"}`
and `put("a", "1", "b", "2")` each send one `putlist` with `a, 1, b, 2`. -/
theorem hash_put_dispatch_witness :
    (luaF_hash_put exampleHost exampleBackend
        [hashSelf, strSlot "k".toList, strSlot "v".toList]).1
      = [.tcrdbput "k".toList "v".toList] ∧
    (luaF_hash_put exampleHost exampleBackend
        [hashSelf, .tableOf (strTable [("a".toList, "1".toList), ("b".toList, "2".toList)])]).1
      = [.tcrdbmisc "putlist" 0 ["a".toList, "1".toList, "b".toList, "2".toList]] ∧
    (luaF_hash_put exampleHost exampleBackend
        (hashSelf :: ["a".toList, "1".toList, "b".toList, "2".toList].map strSlot)).1
      = [.tcrdbmisc "putlist" 0 ["a".toList, "1".toList, "b".toList, "2".toList]] :=
  have h := hash_put_dispatch exampleHost exampleBackend hashSelf 1 rfl
  ⟨h.1 _ _, h.2.1 _ [], h.2.2 _ (by decide)⟩

theorem hash_get_keys (H : LuaHost) (B : Backend) (L : LuaStack) (db : Nat) (keys : TCLIST)
    (hs : _self_hdb L = .ok db)
    (hin : (if lua_istable L 2 then
              (.ok (some (_luatable2tclist (tableAt L 2) 0), none, []) :
                Except LuaError (Option TCLIST × Option ByteString × List Request))
            else if lua_gettop L = 2 then
              match luaL_checklstring H L 2 with
              | .error e => .error e
              | .ok key => .ok (none, B.tcrdbget key, [.tcrdbget key])
            else
              match _lualist2tclist H L 2 with
              | .error e => .error e
              | .ok keys => .ok (some keys, none, [])) = .ok (some keys, none, [])) :
    GetsList B keys (luaF_hash_get H B L) := by
  simp only [luaF_hash_get, hs, hin, GetsList]
  cases hB : B.tcrdbmisc "getlist" 0 keys with
  | none => simp
  | some items =>
    obtain ⟨r, hr⟩ := tclist2luatable_keys_some items
    simp [hr]

/-- C9: on an open hash database, `luaF_hash_get` called with a table of keys, or with
two or more string keys, sends the one request `getlist` with the key list; whenever the
server answers with a list, the empty list included, the call returns the table
`_tclist2luatable` with `keys == 1` builds from it; it returns the failure values only
when the server answers with no list. -/
theorem hash_get_list (H : LuaHost) (B : Backend) (self : StackValue) (db : Nat)
    (hself : _self_hdb [self] = .ok db) :
    (∀ (t : LuaTable) (rest : LuaStack),
      GetsList B (_luatable2tclist t 0) (luaF_hash_get H B (self :: .tableOf t :: rest))) ∧
    (∀ args : List ByteString, 2 ≤ args.length →
      GetsList B args (luaF_hash_get H B (self :: args.map strSlot))) := by
  constructor
  · intro t rest
    obtain ⟨ht, hat⟩ := istable_two_table self t rest
    apply hash_get_keys H B _ db _ (by rw [self_hdb_cons, hself])
    simp only [ht, hat, if_true]
  · intro args hlen
    have htop : ¬ lua_gettop (self :: args.map strSlot) = 2 := by
      simp [lua_gettop]; omega
    apply hash_get_keys H B _ db _ (by rw [self_hdb_cons, hself])
    simp only [istable_two_strings, htop, lualist2tclist_strings]
    rfl

/-- C9, on the example database, which holds no record: `get{"a", "b"}` and
`get("a", "b")` send `getlist` with `a, b`, are answered with the empty list, and return
the empty table. -/
theorem hash_get_list_witness :
    luaF_hash_get exampleHost exampleBackend
        [hashSelf, .tableOf (seqTable ["a".toList, "b".toList])]
      = ([.tcrdbmisc "getlist" 0 ["a".toList, "b".toList]], some (.returned [.tableOf []])) ∧
    GetsList exampleBackend ["a".toList, "b".toList]
      (luaF_hash_get exampleHost exampleBackend
        (hashSelf :: ["a".toList, "b".toList].map strSlot)) :=
  have h := hash_get_list exampleHost exampleBackend hashSelf 1 rfl
  ⟨by decide, h.2 _ (by decide)⟩

/-- C10 (the code at the failing input): when the server answers an increment with
not-a-number, `luaF_any_increment` does not take its failure branch, since
`result == INT_MIN` is false for not-a-number: it returns not-a-number as the new value,
whatever the key and the amount. -/
theorem increment_returns_nan (key : ByteString) (amount : LuaNumber) :
    luaF_any_increment exampleHost nanBackend [hashSelf, strSlot key, .value (.number amount)]
      = ([.tcrdbadddouble key amount], .returned [.value (.number .nan)]) ∧
    luaF_any_increment exampleHost nanBackend [hashSelf, strSlot key]
      = ([.tcrdbadddouble key (.finite 1)], .returned [.value (.number .nan)]) ∧
    Outcome.returned [.value (.number .nan)] ≠ _failure nanBackend.errmsg := by
  refine ⟨?_, ?_, by simp [_failure]⟩
  · have hs : _self_any [hashSelf, strSlot key, .value (.number amount)] = .ok 1 := rfl
    have h2 : luaL_checklstring exampleHost [hashSelf, strSlot key, .value (.number amount)] 2
        = .ok key := rfl
    have h3 : luaL_checknumber exampleHost [hashSelf, strSlot key, .value (.number amount)] 3
        = .ok amount := rfl
    have hnil : lua_isnoneornil [hashSelf, strSlot key, .value (.number amount)] 3 = false := by
      simp [lua_isnoneornil, lua_typeAt, slotAt, lua_type, LUA_TNUMBER]
    simp [luaF_any_increment, hs, h2, h3, hnil, nanBackend, double_eq]
  · have hs : _self_any [hashSelf, strSlot key] = .ok 1 := rfl
    have h2 : luaL_checklstring exampleHost [hashSelf, strSlot key] 2 = .ok key := rfl
    have hnil : lua_isnoneornil [hashSelf, strSlot key] 3 = true := by
      simp [lua_isnoneornil, lua_typeAt, slotAt, LUA_TNONE]
    simp [luaF_any_increment, hs, h2, hnil, nanBackend, double_eq]

/-! ## `_tclist2luatable` on any list -/

theorem tclist2luatable_loop_pairsOf (n : Nat) :
    ∀ (items : TCLIST) (index : Int) (t : LuaTable), items.length ≤ n →
      _tclist2luatable_loop 1 (pairsOf items).length items index t
        = some (storePairs t (pairsOf items)) := by
  induction n using Nat.strong_induction_on with
  | _ n ih =>
    intro items index t hlen
    match items, hlen with
    | [], _ => simp [pairsOf, _tclist2luatable_loop, storePairs]
    | [_], _ => simp [pairsOf, _tclist2luatable_loop, storePairs]
    | k :: v :: rest, hlen =>
      simp only [List.length_cons] at hlen
      have hrest := ih rest.length (by omega) rest index
        (lua_settable t (.string k) (.string v)) (le_refl _)
      simp only [pairsOf, List.length_cons, _tclist2luatable_loop, tclistshift, storePairs,
        List.foldl_cons]
      rw [if_pos (by decide), hrest]
      rfl

theorem pairsOf_length (n : Nat) :
    ∀ items : TCLIST, items.length ≤ n → (pairsOf items).length = items.length / 2 := by
  induction n using Nat.strong_induction_on with
  | _ n ih =>
    intro items hlen
    match items, hlen with
    | [], _ => rfl
    | [_], _ => simp [pairsOf]
    | k :: v :: rest, hlen =>
      simp only [List.length_cons] at hlen
      have hrest := ih rest.length (by omega) rest (le_refl _)
      simp only [pairsOf, List.length_cons, hrest]
      omega

theorem tclist2luatable_keys_eq (items : TCLIST) :
    _tclist2luatable items 1 = some (storePairs [] (pairsOf items)) := by
  simp only [_tclist2luatable, tclistnum]
  rw [if_pos (by decide), ← pairsOf_length items.length items (le_refl _)]
  exact tclist2luatable_loop_pairsOf items.length items 1 [] (le_refl _)

theorem pairsOf_dropLast (n : Nat) :
    ∀ items : TCLIST, items.length ≤ n → items.length % 2 = 1 →
      pairsOf items.dropLast = pairsOf items := by
  induction n using Nat.strong_induction_on with
  | _ n ih =>
    intro items hlen hodd
    match items, hlen, hodd with
    | [], _, hodd => simp at hodd
    | [_], _, _ => rfl
    | [_, _], _, hodd => simp at hodd
    | k :: v :: x :: rest, hlen, hodd =>
      simp only [List.length_cons] at hlen hodd
      have hrest := ih (x :: rest).length (by simp only [List.length_cons]; omega) (x :: rest)
        (le_refl _) (by simp only [List.length_cons]; omega)
      simp only [List.dropLast_cons₂, pairsOf] at hrest ⊢
      rw [hrest]

/-- C17: for every list of odd length, `_tclist2luatable` with `keys == 1` does not
fail: it stores the `n / 2` key/value pairs made of the leading items, one after the
other, leaves the last item out, and so returns what it returns for the list without its
last item. -/
theorem tclist2luatable_odd_length (items : TCLIST) (hodd : items.length % 2 = 1) :
    _tclist2luatable items 1 = some (storePairs [] (pairsOf items)) ∧
    (pairsOf items).length = items.length / 2 ∧
    pairsOf items = pairsOf items.dropLast ∧
    _tclist2luatable items 1 = _tclist2luatable items.dropLast 1 := by
  have hdrop := pairsOf_dropLast items.length items (le_refl _) hodd
  refine ⟨tclist2luatable_keys_eq items, pairsOf_length items.length items (le_refl _),
    hdrop.symm, ?_⟩
  rw [tclist2luatable_keys_eq, tclist2luatable_keys_eq, hdrop]

/-- C17, at the list `a, 1, b`: the table is `{a="1"}`, as for the list `a, 1`. -/
theorem tclist2luatable_odd_length_witness :
    _tclist2luatable ["a".toList, "1".toList, "b".toList] 1
      = some [(luaStr "a", luaStr "1")] ∧
    _tclist2luatable ["a".toList, "1".toList, "b".toList] 1
      = _tclist2luatable ["a".toList, "1".toList] 1 :=
  have h := tclist2luatable_odd_length ["a".toList, "1".toList, "b".toList] (by decide)
  ⟨by rw [h.1]; decide, h.2.2.2⟩

theorem tclist2luatable_flatMap_pairs (es : List (ByteString × ByteString))
    (hnodup : (es.map Prod.fst).Nodup) :
    _tclist2luatable (es.flatMap (fun e => [e.1, e.2])) 1 = some (strTable es) := by
  simp only [_tclist2luatable, tclistnum, length_flatMap_pairs]
  rw [if_pos (by decide), Nat.mul_div_cancel_left _ (by decide : 0 < 2),
    tclist2luatable_loop_pairs es 1 [] hnodup (by simp)]
  simp

/-! ## `luaF_any_stat` -/

theorem stat_loop_token (f rest token : ByteString) (list : TCLIST)
    (hf : ∀ c ∈ f, c ≠ '\t' ∧ c ≠ '\n' ∧ c ≠ '\x00') :
    luaF_any_stat_loop (f ++ rest) token list = luaF_any_stat_loop rest (token ++ f) list := by
  induction f generalizing token with
  | nil => simp
  | cons c f ih =>
    obtain ⟨ht, hn, hz⟩ := hf c (List.mem_cons_self _ _)
    have hrest := ih (token ++ [c]) (fun d hd => hf d (List.mem_cons_of_mem _ hd))
    simp only [List.cons_append, luaF_any_stat_loop, hz, ht, hn, or_self, if_false]
    simpa using hrest

theorem stat_loop_lines (lines : List (ByteString × ByteString)) (rest : ByteString)
    (list : TCLIST)
    (hfree : ∀ l ∈ lines, ∀ c ∈ l.1 ++ l.2, c ≠ '\t' ∧ c ≠ '\n' ∧ c ≠ '\x00') :
    luaF_any_stat_loop (statText lines ++ rest) [] list
      = luaF_any_stat_loop rest [] (list ++ lines.flatMap (fun l => [l.1, l.2])) := by
  induction lines generalizing list with
  | nil => simp [statText]
  | cons l lines ih =>
    have hl := hfree l (List.mem_cons_self _ _)
    have hk : ∀ c ∈ l.1, c ≠ '\t' ∧ c ≠ '\n' ∧ c ≠ '\x00' :=
      fun c hc => hl c (List.mem_append_left _ hc)
    have hv : ∀ c ∈ l.2, c ≠ '\t' ∧ c ≠ '\n' ∧ c ≠ '\x00' :=
      fun c hc => hl c (List.mem_append_right _ hc)
    have ih' := ih (list ++ [l.1, l.2]) (fun l' hl' => hfree l' (List.mem_cons_of_mem _ hl'))
    simp only [statText, List.flatMap_cons, List.append_assoc, List.cons_append] at ih' ⊢
    have hsep1 : ∀ (r tok : ByteString) (acc : TCLIST),
        luaF_any_stat_loop ('\t' :: r) tok acc = luaF_any_stat_loop r [] (acc ++ [tok]) := by
      intro r tok acc
      simp [luaF_any_stat_loop, tclistpush]
    have hsep2 : ∀ (r tok : ByteString) (acc : TCLIST),
        luaF_any_stat_loop ('\n' :: r) tok acc = luaF_any_stat_loop r [] (acc ++ [tok]) := by
      intro r tok acc
      simp [luaF_any_stat_loop, tclistpush]
    rw [stat_loop_token l.1 _ [] list hk, List.nil_append, hsep1,
      stat_loop_token l.2 _ [] _ hv, List.nil_append, hsep2]
    simpa using ih'

theorem stat_loop_trailing (trailing token : ByteString) (list : TCLIST)
    (htrail : ∀ c ∈ trailing, c ≠ '\t' ∧ c ≠ '\n') :
    luaF_any_stat_loop trailing token list = list := by
  induction trailing generalizing token with
  | nil => rfl
  | cons c rest ih =>
    obtain ⟨ht, hn⟩ := htrail c (List.mem_cons_self _ _)
    simp only [luaF_any_stat_loop, ht, hn, or_self, if_false]
    split
    · rfl
    · exact ih _ (fun d hd => htrail d (List.mem_cons_of_mem _ hd))

/-- C18: for every status text made of lines `key TAB value LF`, with keys and values
free of TAB, LF and NUL and the keys pairwise distinct, followed by any text without TAB
and LF, `luaF_any_stat` on an open database returns the table that binds the key of
each line to its value and holds nothing else: the text after the last LF is left out. -/
theorem stat_table_of_lines (S : TableServer) (L : LuaStack) (db : Nat)
    (lines : List (ByteString × ByteString)) (trailing : ByteString)
    (hself : _self_any L = .ok db)
    (hstat : S.tcrdbstat = some (statText lines ++ trailing))
    (hfree : ∀ l ∈ lines, ∀ c ∈ l.1 ++ l.2, c ≠ '\t' ∧ c ≠ '\n' ∧ c ≠ '\x00')
    (hkeys : (lines.map Prod.fst).Nodup)
    (htrail : ∀ c ∈ trailing, c ≠ '\t' ∧ c ≠ '\n') :
    luaF_any_stat S L = ([.tcrdbstat], some (.returned [.tableOf (strTable lines)])) := by
  simp only [luaF_any_stat, hself, hstat]
  rw [stat_loop_lines lines trailing [] hfree, stat_loop_trailing trailing [] _ htrail,
    List.nil_append, tclist2luatable_flatMap_pairs lines hkeys]
  rfl

/-- C18, on the example server, whose status text is the lines `version TAB 1.1.40 LF`
and `rnum TAB 7 LF` followed by `partial`. -/
theorem stat_table_of_lines_witness :
    luaF_any_stat exampleServer [hashSelf]
      = ([.tcrdbstat], some (.returned [.tableOf
          [(luaStr "version", luaStr "1.1.40"), (luaStr "rnum", luaStr "7")]])) :=
  stat_table_of_lines exampleServer [hashSelf] 1
    [("version".toList, "1.1.40".toList), ("rnum".toList, "7".toList)] "partial".toList
    rfl (by decide) (by decide) (by decide) (by decide)

/-! ## `luaF_query_searchget` -/

theorem tcstrsplit2_loop_token (f rest token : ByteString) (hf : ∀ c ∈ f, c ≠ '\x00') :
    tcstrsplit2_loop (f ++ rest) token = tcstrsplit2_loop rest (token ++ f) := by
  induction f generalizing token with
  | nil => simp
  | cons c f ih =>
    have hc := hf c (List.mem_cons_self _ _)
    have hrest := ih (token ++ [c]) (fun d hd => hf d (List.mem_cons_of_mem _ hd))
    simp only [List.cons_append, tcstrsplit2_loop, hc, if_false]
    simpa using hrest

theorem tcstrsplit2_loop_fields (fs : List ByteString) :
    ∀ (f token : ByteString), (∀ g ∈ f :: fs, ∀ c ∈ g, c ≠ '\x00') →
      tcstrsplit2_loop (joinNul (f :: fs) ++ ['\x00']) token = (token ++ f) :: fs ++ [[]] := by
  induction fs with
  | nil =>
    intro f token hfree
    simp only [joinNul]
    rw [tcstrsplit2_loop_token f _ token (hfree f (List.mem_cons_self _ _))]
    simp [tcstrsplit2_loop]
  | cons g rest ih =>
    intro f token hfree
    have hg := ih g [] (fun h hh => hfree h (List.mem_cons_of_mem _ hh))
    simp only [joinNul, List.append_assoc, List.cons_append]
    rw [tcstrsplit2_loop_token f _ token (hfree f (List.mem_cons_self _ _))]
    simp only [tcstrsplit2_loop, if_true]
    rw [hg]
    simp

theorem searchget_region_rowItem (pkey : ByteString) (cols : List (ByteString × ByteString)) :
    searchget_region (rowItem pkey cols) = joinNul (rowFields pkey cols) ++ ['\x00'] := by
  simp only [searchget_region, rowItem, List.cons_append, List.drop_succ_cons, List.drop_zero,
    List.length_cons]
  apply List.take_of_length_le
  simp

theorem rowFields_free (pkey : ByteString) (cols : List (ByteString × ByteString))
    (hpkey : ∀ c ∈ pkey, c ≠ '\x00')
    (hcols : ∀ p ∈ cols, (∀ c ∈ p.1, c ≠ '\x00') ∧ (∀ c ∈ p.2, c ≠ '\x00')) :
    ∀ g ∈ rowFields pkey cols, ∀ c ∈ g, c ≠ '\x00' := by
  intro g hg
  simp only [rowFields, List.mem_cons, List.mem_flatMap, List.mem_singleton, List.not_mem_nil,
    or_false] at hg
  rcases hg with rfl | ⟨p, hp, rfl | rfl⟩
  · exact hpkey
  · exact (hcols p hp).1
  · exact (hcols p hp).2

theorem tcstrsplit2_rowItem (pkey : ByteString) (cols : List (ByteString × ByteString))
    (hpkey : ∀ c ∈ pkey, c ≠ '\x00')
    (hcols : ∀ p ∈ cols, (∀ c ∈ p.1, c ≠ '\x00') ∧ (∀ c ∈ p.2, c ≠ '\x00')) :
    tcstrsplit2 (searchget_region (rowItem pkey cols))
      = pkey :: cols.flatMap (fun c => [c.1, c.2]) ++ [[]] := by
  rw [searchget_region_rowItem, tcstrsplit2, rowFields,
    tcstrsplit2_loop_fields _ pkey [] (rowFields_free pkey cols hpkey hcols)]
  simp

theorem pairsOf_flatMap_append (cols : List (ByteString × ByteString)) (tail : TCLIST) :
    pairsOf (cols.flatMap (fun c => [c.1, c.2]) ++ tail) = cols ++ pairsOf tail := by
  induction cols with
  | nil => simp
  | cons c rest ih =>
    rw [List.flatMap_cons]
    show pairsOf (c.1 :: c.2 :: (rest.flatMap (fun c => [c.1, c.2]) ++ tail)) = _
    rw [pairsOf, ih]
    rfl

theorem storePairs_nodup (es : List (ByteString × ByteString))
    (hnodup : (es.map Prod.fst).Nodup) : storePairs [] es = strTable es := by
  have h1 := tclist2luatable_keys_eq (es.flatMap (fun e => [e.1, e.2]))
  have h2 := tclist2luatable_flatMap_pairs es hnodup
  have h3 := pairsOf_flatMap_append es []
  simp only [List.append_nil, pairsOf] at h3
  rw [h3, h2] at h1
  exact (Option.some.inj h1).symm

theorem searchget_loop_rows (rows : List (ByteString × List (ByteString × ByteString)))
    (t : TupleTable)
    (hnul : ∀ r ∈ rows, (∀ c ∈ r.1, c ≠ '\x00') ∧
      ∀ p ∈ r.2, (∀ c ∈ p.1, c ≠ '\x00') ∧ (∀ c ∈ p.2, c ≠ '\x00')) :
    luaF_query_searchget_loop rows.length (rows.map (fun r => rowItem r.1 r.2)) t
      = some (rows.foldl
          (fun t r => lua_settable_tuple t (.string r.1) (storePairs [] r.2)) t) := by
  induction rows generalizing t with
  | nil => rfl
  | cons r rest ih =>
    obtain ⟨hpkey, hcols⟩ := hnul r (List.mem_cons_self _ _)
    have htuple : _tclist2luatable (r.2.flatMap (fun c => [c.1, c.2]) ++ [[]]) 1
        = some (storePairs [] r.2) := by
      rw [tclist2luatable_keys_eq, pairsOf_flatMap_append]
      simp [pairsOf]
    simp only [List.length_cons, List.map_cons, luaF_query_searchget_loop, tclistshift,
      tcstrsplit2_rowItem r.1 r.2 hpkey hcols, List.cons_append, htuple, List.foldl_cons]
    exact ih _ (fun r' hr' => hnul r' (List.mem_cons_of_mem _ hr'))

theorem lua_settable_tuple_new (t : TupleTable) (k : LuaValue) (v : LuaTable)
    (hk : ∀ e ∈ t, e.1 ≠ k) : lua_settable_tuple t k v = t ++ [(k, v)] := by
  have hany : t.any (fun e => decide (e.1 = k)) = false := by
    rw [List.any_eq_false]
    intro e he
    simpa using hk e he
  simp [lua_settable_tuple, hany]

theorem settable_tuple_foldl_nodup (rows : List (ByteString × List (ByteString × ByteString)))
    (t : TupleTable) (f : List (ByteString × ByteString) → LuaTable)
    (hnodup : (rows.map Prod.fst).Nodup)
    (hnew : ∀ r ∈ rows, ∀ e ∈ t, e.1 ≠ LuaValue.string r.1) :
    rows.foldl (fun t r => lua_settable_tuple t (.string r.1) (f r.2)) t
      = t ++ rows.map (fun r => (LuaValue.string r.1, f r.2)) := by
  induction rows generalizing t with
  | nil => simp
  | cons r rest ih =>
    simp only [List.map_cons, List.nodup_cons] at hnodup
    rw [List.foldl_cons, lua_settable_tuple_new t _ _ (hnew r (List.mem_cons_self _ _)),
      ih _ hnodup.2]
    · simp
    · intro r' hr' e he
      rcases List.mem_append.mp he with he | he
      · exact hnew r' (List.mem_cons_of_mem _ hr') e he
      · simp only [List.mem_singleton] at he
        subst he
        intro heq
        simp only [LuaValue.string.injEq] at heq
        exact hnodup.1 (heq ▸ List.mem_map_of_mem Prod.fst hr')

/-- C16: when every row `tcrdbqrysearchget` returns is one NUL byte followed by the
NUL-separated fields `pkey, c1, v1, ..., cn, vn` (`n ≥ 0`, fields free of NUL),
`luaF_query_searchget` on an open query splits the row into these fields and one more,
empty, field, and stores under `pkey` the table in which the pairs `(c1, v1)` ...
`(cn, vn)` have been stored in turn, the empty field being left out.  When the primary
keys are pairwise distinct and so are the column names of each row, the result binds each
`pkey` to exactly `{c1 = v1, ..., cn = vn}`. -/
theorem searchget_rows (S : TableServer) (L : LuaStack) (db : Nat)
    (rows : List (ByteString × List (ByteString × ByteString)))
    (hself : _self_qry L = .ok db)
    (hitems : S.tcrdbqrysearchget = rows.map (fun r => rowItem r.1 r.2))
    (hnul : ∀ r ∈ rows, (∀ c ∈ r.1, c ≠ '\x00') ∧
      ∀ p ∈ r.2, (∀ c ∈ p.1, c ≠ '\x00') ∧ (∀ c ∈ p.2, c ≠ '\x00')) :
    (∀ r ∈ rows, tcstrsplit2 (searchget_region (rowItem r.1 r.2))
      = r.1 :: r.2.flatMap (fun c => [c.1, c.2]) ++ [[]]) ∧
    luaF_query_searchget S L
      = ([.tcrdbqrysearchget], some (.ok (rows.foldl
          (fun t r => lua_settable_tuple t (.string r.1) (storePairs [] r.2)) []))) ∧
    ((rows.map Prod.fst).Nodup → (∀ r ∈ rows, (r.2.map Prod.fst).Nodup) →
      luaF_query_searchget S L
        = ([.tcrdbqrysearchget],
           some (.ok (rows.map (fun r => (LuaValue.string r.1, strTable r.2)))))) := by
  have hrun : luaF_query_searchget S L
      = ([.tcrdbqrysearchget], some (.ok (rows.foldl
          (fun t r => lua_settable_tuple t (.string r.1) (storePairs [] r.2)) []))) := by
    simp only [luaF_query_searchget, hself, hitems, tclistnum, List.length_map]
    rw [searchget_loop_rows rows [] hnul]
    rfl
  refine ⟨fun r hr => tcstrsplit2_rowItem r.1 r.2 (hnul r hr).1 (hnul r hr).2, hrun, ?_⟩
  intro hkeys hcols
  rw [hrun, settable_tuple_foldl_nodup rows [] (storePairs []) hkeys (by simp)]
  simp only [List.nil_append]
  congr 3
  apply List.map_congr_left
  intro r hr
  rw [storePairs_nodup r.2 (hcols r hr)]

/-- C16, on the example server, whose rows are `NUL k1 NUL name NUL alice NUL age NUL 30`
and `NUL k2`. -/
theorem searchget_rows_witness :
    luaF_query_searchget exampleServer [querySelf]
      = ([.tcrdbqrysearchget], some (.ok
          [(luaStr "k1", [(luaStr "name", luaStr "alice"), (luaStr "age", luaStr "30")]),
           (luaStr "k2", [])])) :=
  (searchget_rows exampleServer [querySelf] 2
    [("k1".toList, [("name".toList, "alice".toList), ("age".toList, "30".toList)]),
     ("k2".toList, [])]
    rfl (by decide) (by decide)).2.2 (by decide) (by decide)

/-! ## `luaF_query_setlimit` -/

theorem self_qry_cons (self : StackValue) (rest : LuaStack) :
    _self_qry (self :: rest) = _self_qry [self] := self_cons self rest _ _

theorem toCInt_fits (n : Int) (h : fitsInt n) : toCInt n = n := by
  obtain ⟨hlo, hhi⟩ := h
  have hlo' : -2147483648 ≤ n := by simpa using hlo
  have hhi' : n < 2147483648 := by simpa using hhi
  simp only [toCInt]
  norm_num
  omega

theorem lua_number2integer_fits (n : Int) (h : fitsInt n) :
    lua_number2integer (.finite (n : Rat)) = n := by
  obtain ⟨hlo, hhi⟩ := h
  have hlo' : -2147483648 ≤ n := by simpa using hlo
  have hhi' : n < 2147483648 := by simpa using hhi
  apply lua_number2integer_int
  · norm_num; omega
  · norm_num; omega

theorem checkint_slot (H : LuaHost) (L : LuaStack) (i : Nat) (n : Int) (h : fitsInt n)
    (hslot : slotAt L i = some (limitSlot (some n))) : luaL_checkint H L i = .ok n := by
  simp only [luaL_checkint, luaL_checkinteger, hslot, limitSlot, luaInt,
    luaL_checkinteger_value, lua_tonumber, lua_number2integer_fits n h, toCInt_fits n h]

theorem tointeger_slot (H : LuaHost) (L : LuaStack) (i : Nat) (n : Int) (h : fitsInt n)
    (hslot : slotAt L i = some (limitSlot (some n))) : toCInt (lua_tointeger H L i) = n := by
  simp only [lua_tointeger, hslot, limitSlot, luaInt, lua_tonumber,
    lua_number2integer_fits n h, toCInt_fits n h]

theorem setlimit_call (H : LuaHost) (self : StackValue) (db : Nat) (args : List (Option Int))
    (hself : _self_qry [self] = .ok db)
    (hlimit : fitsInt (limitOf args)) (hoffset : fitsInt (offsetOf args)) :
    luaF_query_setlimit H (limitStack self args)
      = ([.tcrdbqrysetlimit (limitOf args) (offsetOf args)],
         .returned [.value (.boolean true)]) := by
  have hs : _self_qry (limitStack self args) = .ok db := by
    rw [limitStack, self_qry_cons, hself]
  have hzero : toCInt 0 = 0 := by decide
  simp only [luaF_query_setlimit, hs]
  match args, hlimit, hoffset with
  | [], _, _ =>
    simp [limitStack, lua_isnoneornil, lua_typeAt, slotAt, lua_tointeger, limitOf, offsetOf,
      LUA_TNONE, hzero]
  | [none], _, _ =>
    simp [limitStack, limitSlot, lua_isnoneornil, lua_typeAt, slotAt, lua_tointeger, limitOf,
      offsetOf, lua_type, LUA_TNIL, hzero]
  | [some n], hlimit, _ =>
    have h2 : luaL_checkint H (limitStack self [some n]) 2 = .ok n :=
      checkint_slot H _ 2 n hlimit rfl
    simp only [h2]
    simp [limitStack, limitSlot, luaInt, lua_isnoneornil, lua_typeAt, slotAt, lua_tointeger,
      limitOf, offsetOf, lua_type, LUA_TNUMBER, hzero]
  | none :: none :: rest, _, _ =>
    simp [limitStack, limitSlot, lua_isnoneornil, lua_typeAt, slotAt, lua_tointeger, limitOf,
      offsetOf, lua_type, LUA_TNIL, lua_tonumber, hzero]
  | none :: some m :: rest, _, hoffset =>
    have h3 : toCInt (lua_tointeger H (limitStack self (none :: some m :: rest)) 3) = m :=
      tointeger_slot H _ 3 m hoffset rfl
    simp only [h3]
    simp [limitStack, limitSlot, lua_isnoneornil, lua_typeAt, slotAt, limitOf, offsetOf,
      lua_type, LUA_TNIL]
  | some n :: none :: rest, hlimit, _ =>
    have h2 : luaL_checkint H (limitStack self (some n :: none :: rest)) 2 = .ok n :=
      checkint_slot H _ 2 n hlimit rfl
    simp only [h2]
    simp [limitStack, limitSlot, luaInt, lua_isnoneornil, lua_typeAt, slotAt, lua_tointeger,
      limitOf, offsetOf, lua_type, LUA_TNUMBER, lua_tonumber, hzero]
  | some n :: some m :: rest, hlimit, hoffset =>
    have h2 : luaL_checkint H (limitStack self (some n :: some m :: rest)) 2 = .ok n :=
      checkint_slot H _ 2 n hlimit rfl
    have h3 : toCInt (lua_tointeger H (limitStack self (some n :: some m :: rest)) 3) = m :=
      tointeger_slot H _ 3 m hoffset rfl
    simp only [h2, h3]
    simp [limitStack, limitSlot, luaInt, lua_isnoneornil, lua_typeAt, slotAt, limitOf,
      offsetOf, lua_type, LUA_TNUMBER]

theorem setlimitCalls_eq (H : LuaHost) (self : StackValue) (db : Nat)
    (hself : _self_qry [self] = .ok db) (calls : List (List (Option Int))) (qry : RDBQRY)
    (hfit : ∀ args ∈ calls, fitsInt (limitOf args) ∧ fitsInt (offsetOf args)) :
    setlimitCalls H qry (calls.map (limitStack self))
      = (calls.foldl (fun q args => { q with max := limitOf args, skip := offsetOf args }) qry,
         calls.map (fun _ => Outcome.returned [.value (.boolean true)])) := by
  induction calls generalizing qry with
  | nil => rfl
  | cons args rest ih =>
    obtain ⟨hl, ho⟩ := hfit args (List.mem_cons_self _ _)
    simp only [List.map_cons, setlimitCalls, setlimit_call H self db args hself hl ho,
      List.foldl_cons, List.foldl_nil, RDBQRY.apply]
    rw [ih _ (fun a ha => hfit a (List.mem_cons_of_mem _ ha))]

theorem setlimit_foldl_conds (calls : List (List (Option Int))) (qry : RDBQRY) :
    (calls.foldl (fun q args => { q with max := limitOf args, skip := offsetOf args }) qry).conds
      = qry.conds := by
  induction calls generalizing qry with
  | nil => rfl
  | cons args rest ih => rw [List.foldl_cons, ih]

/-- C15: on an open query, every call of `luaF_query_setlimit` whose count and offset
are integers of the range of a C `int`, `nil` or omitted makes the one library call
`tcrdbqrysetlimit` with the count (-1 when omitted or `nil`) and the offset (0 when
omitted or `nil`) and returns `true`; after any sequence of such calls the limit of the
query object is the pair of the last call, and its conditions are what they were. -/
theorem setlimit_last_call_wins (H : LuaHost) (self : StackValue) (db : Nat)
    (qry : RDBQRY) (calls : List (List (Option Int))) (last : List (Option Int))
    (hself : _self_qry [self] = .ok db)
    (hfit : ∀ args ∈ calls ++ [last], fitsInt (limitOf args) ∧ fitsInt (offsetOf args)) :
    (∀ args ∈ calls ++ [last],
      luaF_query_setlimit H (limitStack self args)
        = ([.tcrdbqrysetlimit (limitOf args) (offsetOf args)],
           .returned [.value (.boolean true)])) ∧
    (setlimitCalls H qry ((calls ++ [last]).map (limitStack self))).1
      = { conds := qry.conds, max := limitOf last, skip := offsetOf last } ∧
    (setlimitCalls H qry ((calls ++ [last]).map (limitStack self))).2
      = (calls ++ [last]).map (fun _ => Outcome.returned [.value (.boolean true)]) := by
  refine ⟨fun args ha => setlimit_call H self db args hself (hfit args ha).1 (hfit args ha).2,
    ?_, ?_⟩
  · rw [setlimitCalls_eq H self db hself _ qry hfit, List.foldl_append]
    simp only [List.foldl_cons, List.foldl_nil, setlimit_foldl_conds]
  · rw [setlimitCalls_eq H self db hself _ qry hfit]

/-- C15, for `setlimit(5, 0)` followed by `setlimit(10, 2)` on a new query: the limit is
`(10, 2)` and both calls return `true`. -/
theorem setlimit_last_call_wins_witness :
    setlimitCalls exampleHost tcrdbqrynew
        [limitStack querySelf [some 5, some 0], limitStack querySelf [some 10, some 2]]
      = ({ conds := [], max := 10, skip := 2 },
         [.returned [.value (.boolean true)], .returned [.value (.boolean true)]]) :=
  have h := setlimit_last_call_wins exampleHost querySelf 2 tcrdbqrynew
    [[some 5, some 0]] [some 10, some 2] rfl (by
      intro args ha
      simp only [List.cons_append, List.nil_append, List.mem_cons, List.mem_singleton,
        List.not_mem_nil, or_false] at ha
      rcases ha with rfl | rfl <;> simp [limitOf, offsetOf, fitsInt])
  Prod.ext h.2.1 h.2.2

/-! ## Option names: `luaF_query_addcond` and `luaF_table_setindex` -/

theorem cstring_of_free (s : ByteString) (h : ∀ c ∈ s, c ≠ '\x00') : cstring s = s := by
  rw [cstring, List.takeWhile_eq_self_iff]
  intro c hc
  simpa using h c hc

theorem free_of_upcase (s x : ByteString) (hx : ∀ c ∈ x, c ≠ '\x00') (h : upcase s = x) :
    ∀ c ∈ s, c ≠ '\x00' := by
  intro c hc hzero
  subst hzero
  have hmem : (if islower '\x00' then toupper '\x00' else '\x00') ∈ upcase s :=
    List.mem_map_of_mem _ hc
  rw [h] at hmem
  exact hx _ hmem (by decide)

theorem checkoption_loop_at (lst : List String) :
    ∀ (k i : Nat), i < lst.length → (lst.map String.toList).Nodup →
      luaL_checkoption_loop (lst.getD i "").toList lst k = some (k + i) := by
  induction lst with
  | nil => intro k i hi; simp at hi
  | cons x rest ih =>
    intro k i hi hnodup
    simp only [List.map_cons, List.nodup_cons] at hnodup
    cases i with
    | zero => simp [luaL_checkoption_loop]
    | succ j =>
      have hj : j < rest.length := by simpa using hi
      have hmem : (rest.getD j "").toList ∈ rest.map String.toList := by
        apply List.mem_map_of_mem
        rw [List.getD_eq_getElem _ _ hj]
        exact List.getElem_mem _
      have hne : ¬ x.toList = ((x :: rest).getD (j + 1) "").toList := by
        intro heq
        apply hnodup.1
        rw [heq]
        simpa using hmem
      simp only [luaL_checkoption_loop, hne, if_false]
      have := ih (k + 1) j hj hnodup.2
      simpa [Nat.add_assoc, Nat.add_comm 1 j] using this

theorem checkoption_at (lst : List String) (i : Nat) (hi : i < lst.length)
    (hnodup : (lst.map String.toList).Nodup) :
    luaL_checkoption (lst.getD i "").toList lst = .ok i := by
  have h := checkoption_loop_at lst 0 i hi hnodup
  rw [Nat.zero_add] at h
  rw [luaL_checkoption, h]

theorem checkoption_loop_none (name : ByteString) (lst : List String) (k : Nat)
    (h : name ∉ lst.map String.toList) : luaL_checkoption_loop name lst k = none := by
  induction lst generalizing k with
  | nil => rfl
  | cons x rest ih =>
    simp only [List.map_cons, List.mem_cons, not_or] at h
    have hne : ¬ x.toList = name := fun heq => h.1 heq.symm
    simp only [luaL_checkoption_loop, hne, if_false]
    exact ih _ h.2

theorem checkoption_none (name : ByteString) (lst : List String)
    (h : name ∉ lst.map String.toList) :
    luaL_checkoption name lst = .error (.message "invalid option") := by
  rw [luaL_checkoption, checkoption_loop_none name lst 0 h]

theorem skipLead_append (lead : String) (x : ByteString) (hlen : lead.toList.length = 5) :
    skipLead lead (lead.toList ++ x) = x := by
  have hpre : lead.toList.isPrefixOf (lead.toList ++ x) = true := by
    rw [List.isPrefixOf_iff_prefix]
    exact List.prefix_append _ _
  simp only [skipLead, hpre, if_true]
  rw [← hlen, List.drop_left]

theorem checkstring_slot (H : LuaHost) (L : LuaStack) (i : Nat) (s : ByteString)
    (h : slotAt L i = some (strSlot s)) : luaL_checkstring H L i = .ok (cstring s) := by
  simp [luaL_checkstring, luaL_checklstring, h, strSlot, luaL_checklstring_value, lua_tolstring]

theorem checklstring_slot (H : LuaHost) (L : LuaStack) (i : Nat) (s : ByteString)
    (h : slotAt L i = some (strSlot s)) : luaL_checklstring H L i = .ok s := by
  simp [luaL_checklstring, h, strSlot, luaL_checklstring_value, lua_tolstring]

theorem typeAt_slot (L : LuaStack) (i : Nat) (s : ByteString)
    (h : slotAt L i = some (strSlot s)) : lua_typeAt L i = LUA_TSTRING := by
  simp [lua_typeAt, h, strSlot, lua_type]

theorem operator_names_nodup : (operator_names.map String.toList).Nodup := by decide

theorem operator_names_free :
    ∀ i, i < operator_names.length → ∀ c ∈ (operator_names.getD i "").toList, c ≠ '\x00' := by
  decide

theorem operator_names_skipLead :
    ∀ i, i < operator_names.length →
      skipLead "RDBQC" (operator_names.getD i "").toList = (operator_names.getD i "").toList := by
  decide

theorem query_operator_at (indicator : ByteString) (i : Nat) (hi : i < operator_names.length)
    (hres : skipLead "RDBQC" (upcase indicator) = (operator_names.getD i "").toList) :
    query_operator indicator = .ok i := by
  rw [query_operator, hres, checkoption_at operator_names i hi operator_names_nodup]

theorem addcond_resolved (K : TcrdbH) (C : CLib) (H : LuaHost) (L : LuaStack) (db : Nat)
    (column name expr : ByteString) (i : Nat)
    (hself : _self_qry L = .ok db)
    (hcol : slotAt L 2 = some (strSlot column))
    (hname : slotAt L 3 = some (strSlot name))
    (hexpr : slotAt L 4 = some (strSlot expr))
    (hi : i < operator_names.length)
    (hres : skipLead "RDBQC" (upcase (cstring name)) = (operator_names.getD i "").toList) :
    luaF_query_addcond K C H L
      = ([.tcrdbqryaddcond (cstringAfterUpcase name column)
            ((operator_values K).getD i 0 ||| addcondOptions K L)
            (cstringAfterUpcase name expr)],
         .returned [.value (.boolean true)]) := by
  simp only [luaF_query_addcond, hself, checklstring_slot H L 2 column hcol,
    checklstring_slot H L 3 name hname, query_operator_at _ i hi hres,
    typeAt_slot L 4 expr hexpr, checklstring_slot H L 4 expr hexpr, if_true, addcondOptions]

theorem addcond_unresolved (K : TcrdbH) (C : CLib) (H : LuaHost) (L : LuaStack) (db : Nat)
    (column name : ByteString)
    (hself : _self_qry L = .ok db)
    (hcol : slotAt L 2 = some (strSlot column))
    (hname : slotAt L 3 = some (strSlot name))
    (hres : skipLead "RDBQC" (upcase (cstring name)) ∉ operator_names.map String.toList) :
    luaF_query_addcond K C H L = ([], .raised (.message "invalid option")) := by
  simp only [luaF_query_addcond, hself, checklstring_slot H L 2 column hcol,
    checklstring_slot H L 3 name hname, query_operator, checkoption_none _ _ hres]

theorem resolves_of_any_case (lead : String) (name target : ByteString)
    (hlen : lead.toList.length = 5)
    (hfree : ∀ c ∈ lead.toList ++ target, c ≠ '\x00')
    (hskip : skipLead lead target = target)
    (hcase : upcase name = target ∨ upcase name = lead.toList ++ target) :
    skipLead lead (upcase (cstring name)) = target := by
  rcases hcase with h | h
  · have hname := free_of_upcase name target
      (fun c hc => hfree c (List.mem_append_right _ hc)) h
    rw [cstring_of_free name hname, h, hskip]
  · have hname := free_of_upcase name _ hfree h
    rw [cstring_of_free name hname, h, skipLead_append lead target hlen]

/-- C11: on an open query with a string column, every name that upper-cased is an
operator name `N` of `operator_names`, or `RDBQC` followed by `N`, makes
`luaF_query_addcond` add the condition with the operator value listed for `N` (so the
same operator in whatever case the name is written, with or without `RDBQC` before it);
and every name that, read up to its first NUL byte, upper-cased and without one leading
`RDBQC`, is no operator name makes it raise an argument error and add no condition.  A
name without NUL byte is read whole.  Column and expression go to the library as the C
strings read after the name has been upper-cased in place: as written, unless they are
the very string given as the name, which is upper-cased by then. -/
theorem addcond_operator_names (K : TcrdbH) (C : CLib) (H : LuaHost) (L : LuaStack) (db : Nat)
    (column name : ByteString)
    (hself : _self_qry L = .ok db)
    (hcol : slotAt L 2 = some (strSlot column))
    (hname : slotAt L 3 = some (strSlot name)) :
    (∀ (i : Nat) (expr : ByteString), i < operator_names.length →
      slotAt L 4 = some (strSlot expr) →
      (upcase name = (operator_names.getD i "").toList ∨
        upcase name = "RDBQC".toList ++ (operator_names.getD i "").toList) →
      luaF_query_addcond K C H L
        = ([.tcrdbqryaddcond (cstringAfterUpcase name column)
              ((operator_values K).getD i 0 ||| addcondOptions K L)
              (cstringAfterUpcase name expr)],
           .returned [.value (.boolean true)])) ∧
    (skipLead "RDBQC" (upcase (cstring name)) ∉ operator_names.map String.toList →
      luaF_query_addcond K C H L = ([], .raised (.message "invalid option"))) ∧
    ((∀ c ∈ name, c ≠ '\x00') → cstring name = name) := by
  refine ⟨?_, addcond_unresolved K C H L db column name hself hcol hname,
    cstring_of_free name⟩
  intro i expr hi hexpr hcase
  apply addcond_resolved K C H L db column name expr i hself hcol hname hexpr hi
  apply resolves_of_any_case "RDBQC" name _ (by decide) _ (operator_names_skipLead i hi) hcase
  have hlead : ∀ c ∈ "RDBQC".toList, c ≠ '\x00' := by decide
  intro c hc
  rcases List.mem_append.mp hc with hc | hc
  · exact hlead c hc
  · exact operator_names_free i hi c hc

/-- C11, on the example query: `streq`, `RDBQCSTREQ` and `STREQ` add the same condition,
`bogus` raises an error and adds nothing, and `addcond("streq", "streq", "streq")` adds
the condition `STREQ` on the column `STREQ` with the expression `STREQ`, since the three
arguments are one string. -/
theorem addcond_operator_names_witness :
    luaF_query_addcond tcrdbH exampleCLib exampleHost
        [querySelf, strSlot "name".toList, strSlot "streq".toList, strSlot "alice".toList]
      = ([.tcrdbqryaddcond "name".toList 0 "alice".toList],
         .returned [.value (.boolean true)]) ∧
    luaF_query_addcond tcrdbH exampleCLib exampleHost
        [querySelf, strSlot "name".toList, strSlot "RDBQCSTREQ".toList, strSlot "alice".toList]
      = ([.tcrdbqryaddcond "name".toList 0 "alice".toList],
         .returned [.value (.boolean true)]) ∧
    luaF_query_addcond tcrdbH exampleCLib exampleHost
        [querySelf, strSlot "name".toList, strSlot "STREQ".toList, strSlot "alice".toList]
      = ([.tcrdbqryaddcond "name".toList 0 "alice".toList],
         .returned [.value (.boolean true)]) ∧
    luaF_query_addcond tcrdbH exampleCLib exampleHost
        [querySelf, strSlot "name".toList, strSlot "bogus".toList, strSlot "alice".toList]
      = ([], .raised (.message "invalid option")) ∧
    luaF_query_addcond tcrdbH exampleCLib exampleHost
        [querySelf, strSlot "streq".toList, strSlot "streq".toList, strSlot "streq".toList]
      = ([.tcrdbqryaddcond "STREQ".toList 0 "STREQ".toList],
         .returned [.value (.boolean true)]) := by
  have h := fun column name expr : ByteString =>
    addcond_operator_names tcrdbH exampleCLib exampleHost
      [querySelf, strSlot column, strSlot name, strSlot expr] 2
      column name rfl rfl rfl
  refine ⟨?_, ?_, ?_, ?_, ?_⟩
  · rw [(h "name".toList "streq".toList "alice".toList).1 0 "alice".toList (by decide) rfl
      (Or.inl (by decide))]
    decide
  · rw [(h "name".toList "RDBQCSTREQ".toList "alice".toList).1 0 "alice".toList (by decide)
      rfl (Or.inr (by decide))]
    decide
  · rw [(h "name".toList "STREQ".toList "alice".toList).1 0 "alice".toList (by decide) rfl
      (Or.inl (by decide))]
    decide
  · exact (h "name".toList "bogus".toList "alice".toList).2.1 (by decide)
  · rw [(h "streq".toList "streq".toList "streq".toList).1 0 "streq".toList (by decide) rfl
      (Or.inl (by decide))]
    decide

theorem type_names_nodup : (type_names.map String.toList).Nodup := by decide

/-- C12: on an open table database with a string column, `luaF_table_setindex` reads the
type name up to its first NUL byte, upper-cases it and drops one leading `RDBIT`; when
the result is the `i`-th name of `LEXICAL, DECIMAL, TOKEN, QGRAM, OPT, VOID` it makes the
one call `tcrdbtblsetindex` with the index type listed for that name, or-ed with
`RDBITKEEP` exactly when the keep argument is true, and returns `true` or the failure
values as the server answers; when the result is none of the six names it raises an
argument error and makes no call.  A name without NUL byte is read whole.  The column
goes to the library as the C string read after the name has been upper-cased in place:
as written, unless it is the very string given as the name, which is upper-cased by
then. -/
theorem setindex_type_names (K : TcrdbH) (S : TableServer) (H : LuaHost) (L : LuaStack)
    (db : Nat) (column name : ByteString)
    (hself : _self_tdb L = .ok db)
    (hcol : slotAt L 2 = some (strSlot column))
    (hname : slotAt L 3 = some (strSlot name)) :
    (∀ i : Nat, i < type_names.length →
      skipLead "RDBIT" (upcase (cstring name)) = (type_names.getD i "").toList →
      luaF_table_setindex K S H L
        = ([.tcrdbtblsetindex (cstringAfterUpcase name column)
              ((type_values K).getD i 0 ||| (if lua_toboolean L 4 then K.RDBITKEEP else 0))],
           if S.tcrdbtblsetindex (cstringAfterUpcase name column)
              ((type_values K).getD i 0 ||| (if lua_toboolean L 4 then K.RDBITKEEP else 0))
           then .returned [.value (.boolean true)] else _failure S.errmsg)) ∧
    (skipLead "RDBIT" (upcase (cstring name)) ∉ type_names.map String.toList →
      luaF_table_setindex K S H L = ([], .raised (.message "invalid option"))) ∧
    ((∀ c ∈ name, c ≠ '\x00') → cstring name = name) := by
  refine ⟨?_, ?_, cstring_of_free name⟩
  · intro i hi hres
    simp only [luaF_table_setindex, hself, checklstring_slot H L 2 column hcol,
      checklstring_slot H L 3 name hname, hres, checkoption_at type_names i hi type_names_nodup]
    cases S.tcrdbtblsetindex (cstringAfterUpcase name column)
      ((type_values K).getD i 0 ||| (if lua_toboolean L 4 then K.RDBITKEEP else 0)) <;> rfl
  · intro hres
    simp only [luaF_table_setindex, hself, checklstring_slot H L 2 column hcol,
      checklstring_slot H L 3 name hname, checkoption_none _ _ hres]

/-- C12, on the example database: `setindex("age", "rdbitDecimal", true)` asks for the
index type `DECIMAL` with the keep flag, `setindex("age", "qgram")` for `QGRAM` without
it, `setindex("age", "hash")` raises an error and makes no call, and
`setindex("token", "token")` asks for the index type `TOKEN` on the column `TOKEN`,
since the two arguments are one string. -/
theorem setindex_type_names_witness :
    luaF_table_setindex tcrdbH exampleServer exampleHost
        [tableSelf, strSlot "age".toList, strSlot "rdbitDecimal".toList,
          .value (.boolean true)]
      = ([.tcrdbtblsetindex "age".toList (1 ||| 2 ^ 24)], .returned [.value (.boolean true)]) ∧
    luaF_table_setindex tcrdbH exampleServer exampleHost
        [tableSelf, strSlot "age".toList, strSlot "qgram".toList]
      = ([.tcrdbtblsetindex "age".toList 3], .returned [.value (.boolean true)]) ∧
    luaF_table_setindex tcrdbH exampleServer exampleHost
        [tableSelf, strSlot "age".toList, strSlot "hash".toList]
      = ([], .raised (.message "invalid option")) ∧
    luaF_table_setindex tcrdbH exampleServer exampleHost
        [tableSelf, strSlot "token".toList, strSlot "token".toList]
      = ([.tcrdbtblsetindex "TOKEN".toList 2], .returned [.value (.boolean true)]) := by
  have h := fun (column name : ByteString) (flags : LuaStack) =>
    setindex_type_names tcrdbH exampleServer exampleHost
      ([tableSelf, strSlot column, strSlot name] ++ flags) 1
      column name rfl rfl rfl
  refine ⟨?_, ?_, ?_, ?_⟩
  · have h1 := (h "age".toList "rdbitDecimal".toList [.value (.boolean true)]).1 1
      (by decide) (by decide)
    exact h1.trans (by decide)
  · have h2 := (h "age".toList "qgram".toList []).1 3 (by decide) (by decide)
    exact h2.trans (by decide)
  · exact (h "age".toList "hash".toList []).2.1 (by decide)
  · have h4 := (h "token".toList "token".toList []).1 2 (by decide) (by decide)
    exact h4.trans (by decide)

/-! ## `luaF_query_addcond`: flags and expression -/

/-- C13 (the code at the failing inputs): `luaF_query_addcond` computes both option bits
from argument 5 and never reads argument 6.  `addcond("age", "NUMGE", "18", true, false)`
adds a condition with `RDBQCNEGATE` and `RDBQCNOIDX` both or-ed in, and
`addcond("age", "NUMGE", "18", false, true)` adds one with neither. -/
theorem addcond_flags_from_one_argument (K : TcrdbH) :
    luaF_query_addcond K exampleCLib exampleHost
        [querySelf, strSlot "age".toList, strSlot "NUMGE".toList, strSlot "18".toList,
          .value (.boolean true), .value (.boolean false)]
      = ([.tcrdbqryaddcond "age".toList (K.RDBQCNUMGE ||| (K.RDBQCNEGATE ||| K.RDBQCNOIDX))
            "18".toList],
         .returned [.value (.boolean true)]) ∧
    luaF_query_addcond K exampleCLib exampleHost
        [querySelf, strSlot "age".toList, strSlot "NUMGE".toList, strSlot "18".toList,
          .value (.boolean false), .value (.boolean true)]
      = ([.tcrdbqryaddcond "age".toList (K.RDBQCNUMGE ||| (0 ||| 0)) "18".toList],
         .returned [.value (.boolean true)]) := by
  have h := fun flags : LuaStack =>
    addcond_resolved K exampleCLib exampleHost
      ([querySelf, strSlot "age".toList, strSlot "NUMGE".toList, strSlot "18".toList] ++ flags)
      2 "age".toList "NUMGE".toList "18".toList 10 rfl rfl rfl rfl (by decide) (by decide)
  exact ⟨(h [.value (.boolean true), .value (.boolean false)]).trans rfl,
    (h [.value (.boolean false), .value (.boolean true)]).trans rfl⟩

theorem checknumber_error (H : LuaHost) (L : LuaStack) (i : Nat)
    (hstr : lua_typeAt L i ≠ LUA_TSTRING) (hnum : lua_typeAt L i ≠ LUA_TNUMBER) :
    luaL_checknumber H L i = .error (.typeError i "number") := by
  unfold luaL_checknumber
  unfold lua_typeAt at hstr hnum
  cases hslot : slotAt L i with
  | none => rfl
  | some sv =>
    rw [hslot] at hstr hnum
    cases sv with
    | tableOf t => rfl
    | value v =>
      cases v <;> simp_all [lua_type, lua_tonumber]

/-- C14 (as stated, refuted): with a valid column and the operator `NUMGE`, an
expression that is `true`, `nil`, a table or omitted makes `luaF_query_addcond` raise
the error of `luaL_checknumber` for argument 4; it does not return `false`.  No
condition is added. -/
theorem addcond_expression_counterexample :
    luaF_query_addcond tcrdbH exampleCLib exampleHost
        [querySelf, strSlot "age".toList, strSlot "NUMGE".toList, .value (.boolean true)]
      = ([], .raised (.typeError 4 "number")) ∧
    luaF_query_addcond tcrdbH exampleCLib exampleHost
        [querySelf, strSlot "age".toList, strSlot "NUMGE".toList, .value .nil]
      = ([], .raised (.typeError 4 "number")) ∧
    luaF_query_addcond tcrdbH exampleCLib exampleHost
        [querySelf, strSlot "age".toList, strSlot "NUMGE".toList, .tableOf []]
      = ([], .raised (.typeError 4 "number")) ∧
    luaF_query_addcond tcrdbH exampleCLib exampleHost
        [querySelf, strSlot "age".toList, strSlot "NUMGE".toList]
      = ([], .raised (.typeError 4 "number")) ∧
    (luaF_query_addcond tcrdbH exampleCLib exampleHost
        [querySelf, strSlot "age".toList, strSlot "NUMGE".toList, .value (.boolean true)]).2
      ≠ .returned [.value (.boolean false)] := by
  decide

/-- C14 (amended): on an open query, with a string column and a recognised operator
name, an expression argument that is neither a string nor a number (a boolean, a table,
`nil`, or none at all) makes `luaF_query_addcond` raise the argument error of
`luaL_checknumber` for argument 4, without any call on the query object: the conditions
of the query are what they were. -/
theorem addcond_expression_not_rendered (K : TcrdbH) (C : CLib) (H : LuaHost) (L : LuaStack)
    (db : Nat) (column name : ByteString) (i : Nat) (qry : RDBQRY)
    (hself : _self_qry L = .ok db)
    (hcol : slotAt L 2 = some (strSlot column))
    (hname : slotAt L 3 = some (strSlot name))
    (hi : i < operator_names.length)
    (hres : skipLead "RDBQC" (upcase (cstring name)) = (operator_names.getD i "").toList)
    (hstr : lua_typeAt L 4 ≠ LUA_TSTRING) (hnum : lua_typeAt L 4 ≠ LUA_TNUMBER) :
    luaF_query_addcond K C H L = ([], .raised (.typeError 4 "number")) ∧
    (luaF_query_addcond K C H L).1.foldl RDBQRY.apply qry = qry := by
  have h : luaF_query_addcond K C H L = ([], .raised (.typeError 4 "number")) := by
    simp only [luaF_query_addcond, hself, checklstring_slot H L 2 column hcol,
      checklstring_slot H L 3 name hname, query_operator_at _ i hi hres, hstr, if_false,
      checknumber_error H L 4 hstr hnum]
    rfl
  exact ⟨h, by rw [h]; rfl⟩

/-- C14 (amended), on the example query with the expression `true`. -/
theorem addcond_expression_not_rendered_witness :
    luaF_query_addcond tcrdbH exampleCLib exampleHost
        [querySelf, strSlot "age".toList, strSlot "numge".toList, .value (.boolean true)]
      = ([], .raised (.typeError 4 "number")) :=
  (addcond_expression_not_rendered tcrdbH exampleCLib exampleHost
    [querySelf, strSlot "age".toList, strSlot "numge".toList, .value (.boolean true)]
    2 "age".toList "numge".toList 10 tcrdbqrynew rfl rfl rfl (by decide) (by decide)
    (by decide) (by decide)).1

end TTyrant
